import Mathlib

/-!
A verification development for the ESS arbetsschema repository
(`src/platsplanering.py` and `src/helpers.py`).

The Python source is shallowly embedded: Python lists become Lean lists,
Python `int` becomes `Int`, Python `float` values that the scripts parse out
of spreadsheet cells are modelled as `ℚ` (the scripts only add, multiply by
small constants, take `math.ceil` and format with one decimal, and the
spreadsheet inputs are short decimal strings, so rational arithmetic agrees
with the source on that domain), an uncaught Python exception becomes
`Option`/`Except` failure, and in-place mutation is modelled by returning the
post-state of the mutated object.
-/

namespace ESS

/-! ### Record Normalizer: `make_items_integer` (platsplanering.py lines 91-119)

A raw identifier cell is either a Python `int` or a Python `str`.
-/

/-- A value found in an identifier column: a Python `int` or `str`. -/
inductive PyId where
  | i (n : Int)
  | s (st : String)
deriving DecidableEq, BEq, Repr

/-- The digit characters of `st`, in order (the effect of the inner
`for c in m: if not c.isdigit(): m = m.replace(c, "")` loop of
`make_items_integer`, which deletes every non-digit character). -/
def stripNonDigits (st : String) : String :=
  ⟨st.data.filter Char.isDigit⟩

/-- Numeric value of a list of decimal digit characters. -/
def digitsVal (ds : List Char) : Nat :=
  ds.foldl (fun a c => a * 10 + (c.toNat - 48)) 0

/-- `int(m)` applied to a string of decimal digits: fails exactly on the
empty string (ASCII digits; this model restricts `str.isdigit` to ASCII). -/
def pyIntOfDigits? (st : String) : Option Int :=
  if st.data = [] then none else some (digitsVal st.data)

/-- One iteration of the conversion loop of `make_items_integer`:
an `int` item is kept; a `str` item has every non-digit character removed
and is replaced by `int` of the remainder; if that parse fails
(`ValueError`), the assignment `thelist[i] = int(m)` never happens and the
original string stays in the list. -/
def convertItem : PyId → PyId
  | .i n => .i n
  | .s st =>
    match pyIntOfDigits? (stripNonDigits st) with
    | some n => .i n
    | none => .s st

/-- Insert into a sorted list (ascending w.r.t. `le`). -/
def insertSorted (le : α → α → Bool) (a : α) : List α → List α
  | [] => [a]
  | b :: bs => if le a b then a :: b :: bs else b :: insertSorted le a bs

/-- Stable insertion sort (the model of Python `sorted` on lists whose
elements are mutually comparable). -/
def insertionSort (le : α → α → Bool) (l : List α) : List α :=
  l.foldr (insertSorted le) []

/-- Python `sorted` on a list that may mix `int` and `str`: if both kinds
are present, comparing an `int` with a `str` raises `TypeError`
(modelled as `.error ()`); an all-`int` list sorts ascending; an
all-`str` list sorts lexicographically by code point. -/
def sortedPy (l : List PyId) : Except Unit (List PyId) :=
  let hasI := l.any fun x => match x with | .i _ => true | .s _ => false
  let hasS := l.any fun x => match x with | .i _ => false | .s _ => true
  if hasI && hasS then
    .error ()
  else if hasI then
    .ok ((insertionSort (fun a b => decide (a ≤ b))
      (l.filterMap fun x => match x with | .i n => some n | .s _ => none)).map .i)
  else
    .ok ((insertionSort (fun a b => decide (a ≤ b))
      (l.filterMap fun x => match x with | .i _ => none | .s st => some st)).map .s)

/-- `make_items_integer` (platsplanering.py 91-119): convert each item,
then `sorted(list(set(thelist)))`. `list(set(...))` is modelled as
`eraseDups` (the set's iteration order is irrelevant after sorting, and the
`TypeError` of sorting a mixed list depends only on which kinds are
present). -/
def make_items_integer (thelist : List PyId) : Except Unit (List PyId) :=
  sortedPy ((thelist.map convertItem).eraseDups)

/-! ### Parsing helpers shared by the reconciliation model -/

/-- `s.replace(",", ".")` for the single-character pattern used by the
source: every `,` becomes `.`. -/
def commaToDot (s : String) : String :=
  ⟨s.data.map fun c => if c = ',' then '.' else c⟩

/-- Split a character list at its first `.`; fails if a second `.`
follows. -/
def splitDot (cs : List Char) : Option (List Char × List Char) :=
  match cs.span fun c => !(c = '.') with
  | (_, []) => none
  | (a, c :: b) => if c = '.' && !(b.contains '.') then some (a, b) else none

/-- Python `float(s)` restricted to the plain decimal forms that occur in
the spreadsheet dimension columns: `"12"`, `"12.5"`, `"12."`, `".5"`
(the source never feeds signs, exponents or padding into this call on the
inputs the claims quantify over). Returns the exact rational value. -/
def pyFloat? (s : String) : Option ℚ :=
  let cs := s.data
  if cs ≠ [] && cs.all Char.isDigit then
    some (digitsVal cs)
  else
    match splitDot cs with
    | none => none
    | some (a, b) =>
      if (a.all Char.isDigit && b.all Char.isDigit) && !(a = [] && b = []) then
        some ((digitsVal a : ℚ) + (digitsVal b : ℚ) / (10 : ℚ) ^ b.length)
      else none

/-! ### Reconciliation Engine: `get_boats` (platsplanering.py lines 279-331)

Member rows (`read_members` keeps the columns Medlemsnr, Längd (båt),
Bredd, Förnamn, Efternamn, Plats) are modelled as typed records with an
integer id and string dimension cells; `get_boats` is modelled at the
value level here (the heap-level model exposing its in-place mutation is
`pyGetBoats` further below).
-/

/-- One row of the member table, as selected by `read_members`. -/
structure MemberRec where
  medlemsnr : Int
  langd : String
  bredd : String
  fornamn : String
  efternamn : String
  plats : String
deriving DecidableEq, Repr

/-- A reconciled boat: the fields `get_boats` instals on each surviving
member dict (`member`, `length`, `width`, `name`, `requested`). -/
structure ReconciledBoat where
  member : Int
  length : ℚ
  width : ℚ
  name : String
  requested : Bool
deriving DecidableEq, Repr

/-- The two `for id in …: if id not in requested_spots: requested_spots.append(id)`
loops of `get_boats`: append each element of `xs` that is not already
present (membership is tested against the growing list, so a duplicate
inside `xs` is appended once). -/
def addMissing (base : List Int) (xs : List Int) : List Int :=
  xs.foldl (fun acc id => if id ∈ acc then acc else acc ++ [id]) base

/-- The body of `for member in requests:` in `get_boats` (lines 315-325):
coerce the id, widen both dimensions by 1 (normalising a decimal comma
first), round the width up to the nearest half, keep the surname, and set
`requested` iff the id is not in `no_spot_requested`. Fails (Python
`ValueError`) when a dimension cell does not parse as a float. -/
def transformMember (m : MemberRec) (no_spot_requested : List Int) :
    Option ReconciledBoat := do
  let l ← pyFloat? (commaToDot m.langd)
  let w0 ← pyFloat? (commaToDot m.bredd)
  let w1 : ℚ := w0 + 1
  some { member := m.medlemsnr
         length := l + 1
         width := (⌈w1 * 2⌉ : ℚ) / 2
         name := m.efternamn
         requested := decide (m.medlemsnr ∉ no_spot_requested) }

/-- `Option`-valued map that fails as soon as one element fails
(an uncaught exception inside the loop aborts the whole call). -/
def mapOption (f : α → Option β) : List α → Option (List β)
  | [] => some []
  | a :: as =>
    match f a, mapOption f as with
    | some b, some bs => some (b :: bs)
    | _, _ => none

/-- One step of building `{boat["member"]: boat for boat in requests}`:
insert under the key, overwriting the value if the key exists (dict
semantics: last write wins, first insertion fixes the position). -/
def upsertBoat (acc : List (Int × ReconciledBoat)) (b : ReconciledBoat) :
    List (Int × ReconciledBoat) :=
  if acc.any fun p => p.1 = b.member then
    acc.map fun p => if p.1 = b.member then (p.1, b) else p
  else
    acc ++ [(b.member, b)]

/-- `list({boat["member"]: boat for boat in requests}.values())`
(line 328): deduplicate by member id, last write wins. -/
def dedupLastWins (bs : List ReconciledBoat) : List ReconciledBoat :=
  (bs.foldl upsertBoat []).map Prod.snd

/-- `get_boats` (platsplanering.py 279-331), value level.  The returned
value is the reconciled boat list; `none` models an uncaught `ValueError`
from a malformed dimension cell.  The in-place growth of
`requested_spots` and the mutation of the member dicts are exposed by
`pyGetBoats` below. -/
def get_boats (members : List MemberRec) (already_there : List Int)
    (scheduled : List Int) (no_spot_requested : List Int)
    (requested_spots : List Int) : Option (List ReconciledBoat) :=
  let merged := addMissing (addMissing requested_spots scheduled) already_there
  let surviving := members.filter fun b => b.medlemsnr ∈ merged
  (mapOption (fun m => transformMember m no_spot_requested) surviving).map
    dedupLastWins

/-! ### Slide / shape model (helpers.py and the Map Colorizer of
platsplanering.py)

A shape of the template deck is modelled by its name, its visible text,
its solid RGB fill and its size; a slide is the ordered list of its
shapes.  The source mutates shapes through object references; the model
locates a shape by index (`get_shapeIdx`) and rebuilds the list.  The
constant black thin outline set by `format_shape` and the font formatting
of `set_shape_text` carry no information (they are the same for every
touched shape) and are not part of the state. -/

/-- An RGB colour (`pptx.dml.color.RGBColor`). -/
structure RGB where
  r : Nat
  g : Nat
  b : Nat
deriving DecidableEq, Repr

/-- The colour configuration built by `define_colors`. -/
structure Colors where
  reserved : RGB
  declined : RGB
  member_left : RGB
  on_land : RGB
  unknown : RGB
deriving DecidableEq, Repr

/-- The default colour table of `define_colors` (no user colour file). -/
def defaultColors : Colors :=
  { reserved := ⟨214, 245, 214⟩
    declined := ⟨255, 230, 230⟩
    member_left := ⟨255, 153, 255⟩
    on_land := ⟨230, 230, 255⟩
    unknown := ⟨255, 255, 255⟩ }

/-- A slide shape: name, visible text, solid fill, size (points). -/
structure Shape where
  name : String
  text : String
  fill : RGB
  width : ℚ
  height : ℚ
deriving DecidableEq, Repr

/-- `needle in hay` on Python strings: `needle` occurs contiguously in
`hay`. -/
def strContains (hay needle : String) : Bool :=
  (List.range (hay.data.length + 1)).any fun k =>
    needle.data = (hay.data.drop k).take needle.data.length

/-- Helper for `pySplit`: split a character list on whitespace, dropping
empty chunks (`acc` holds the current chunk reversed). -/
def wsSplitAux : List Char → List Char → List (List Char)
  | [], acc => if acc.isEmpty then [] else [acc.reverse]
  | c :: cs, acc =>
    if c.isWhitespace then
      if acc.isEmpty then wsSplitAux cs [] else acc.reverse :: wsSplitAux cs []
    else wsSplitAux cs (c :: acc)

/-- Python `str.split()` with no argument: split on whitespace runs,
dropping empty tokens. -/
def pySplit (s : String) : List String :=
  (wsSplitAux s.data []).map fun l => ⟨l⟩

/-- Does any whitespace token of `shape_name` occur in this shape's text?
(`any(_ in shape.text for _ in shape_name.split())`, helpers.py 123). -/
def tokenMatch (shape_name : String) (sh : Shape) : Bool :=
  (pySplit shape_name).any fun tok => strContains sh.text tok

/-- Index of the first element satisfying `p` (the `for shape in
slide.shapes:` scan). -/
def findIdxO (p : α → Bool) : List α → Option Nat
  | [] => none
  | a :: l => if p a then some 0 else (findIdxO p l).map (· + 1)

/-- `get_shape` (helpers.py 105-127), locating the shape by index: the
first loop returns the first shape whose name equals `shape_name`
exactly; the second loop returns the first shape whose visible text
contains any whitespace token of `shape_name`; otherwise nothing.  The
source returns the shape object (a mutable reference); the model returns
its position. -/
def get_shapeIdx (slide : List Shape) (shape_name : String) : Option Nat :=
  match findIdxO (fun sh => sh.name == shape_name) slide with
  | some i => some i
  | none => findIdxO (tokenMatch shape_name) slide

/-- `get_shape` as the source's interface: the located shape itself. -/
def get_shape (slide : List Shape) (shape_name : String) : Option Shape :=
  (get_shapeIdx slide shape_name).bind fun i => slide[i]?

/-- `make_shape_name` (helpers.py 130-131). -/
def make_shape_name (member_id : Int) : String :=
  "Member: " ++ toString member_id

/-- Replace the shape at position `i` (identity when out of range) — the
model of mutating a shape through the reference `get_shape` returned. -/
def modifyAt (f : Shape → Shape) : Nat → List Shape → List Shape
  | _, [] => []
  | 0, sh :: rest => f sh :: rest
  | n + 1, sh :: rest => sh :: modifyAt f n rest

/-- One iteration of `color_boats` (helpers.py 134-156): locate the
member's shape; if found, set its fill and (re)assign its name
(`shape.name = f"Member: {member}"`); if not found, log and skip.  The
`except TypeError` branch concerns exotic fill types that the modelled
decks (solid-fill shapes) never produce. -/
def color_boats_step (color : RGB) (slide : List Shape) (member : Int) :
    List Shape :=
  match get_shapeIdx slide (make_shape_name member) with
  | some i =>
    modifyAt (fun sh => { sh with fill := color, name := make_shape_name member })
      i slide
  | none => slide

/-- `color_boats` (helpers.py 134-156): total loop over the member list. -/
def color_boats (slide : List Shape) (members : List Int) (color : RGB) :
    List Shape :=
  members.foldl (color_boats_step color) slide

/-- `mark_all_boats_as_unhandled` (platsplanering.py 452-455): every shape
whose name contains `"Member:"` is reset to the unknown colour. -/
def mark_all_boats_as_unhandled (colors : Colors) (slide : List Shape) :
    List Shape :=
  slide.map fun sh =>
    if strContains sh.name "Member:" then { sh with fill := colors.unknown }
    else sh

/-- Fill of a freshly added rectangle before `format_shape` runs
(always overwritten immediately in `add_boats_to_map`). -/
def newShapeFill : RGB := ⟨255, 255, 255⟩

/-- `ensured_shape` (platsplanering.py 386-404): locate the shape; if
missing, add a new rectangle sized from the boat (SCALE = 5); if found,
resize it; in both cases set its name (the transient auto-name of a fresh
rectangle is overwritten before anything reads it).  Returns the index of
the affected shape together with the new slide. -/
def ensured_shape (slide : List Shape) (shape_name : String)
    (boat : ReconciledBoat) : Nat × List Shape :=
  match get_shapeIdx slide shape_name with
  | none =>
    (slide.length,
      slide ++ [⟨shape_name, "", newShapeFill, boat.length * 5, boat.width * 5⟩])
  | some i =>
    (i, modifyAt (fun sh =>
      { sh with
        width := boat.length * 5
        height := boat.width * 5
        name := shape_name }) i slide)

/-- Round half to even at one decimal (Python `format(x, ".1f")` on the
non-negative decimal values the captions carry). -/
def roundHalfEven (q : ℚ) : Int :=
  let f : Int := ⌊q⌋
  if q - f < 1 / 2 then f
  else if q - f > 1 / 2 then f + 1
  else if f % 2 = 0 then f else f + 1

/-- `"{x:.1f}"` for the non-negative dimension values of the captions. -/
def fmt1 (q : ℚ) : String :=
  let n := roundHalfEven (q * 10)
  let a := n.natAbs
  (if n < 0 then "-" else "") ++ toString (a / 10) ++ "." ++ toString (a % 10)

/-- The `FULL` caption of `add_boats_to_map` (line 432):
`"{member} {name}\n{length:.1f}x{width:.1f}"`. -/
def boatCaption (boat : ReconciledBoat) : String :=
  toString boat.member ++ " " ++ boat.name ++ "\n" ++
    fmt1 boat.length ++ "x" ++ fmt1 boat.width

/-- One iteration of the boat loop of `add_boats_to_map` (lines 415-435):
ensure the shape, fill it with reserved/declined, set its caption.  (The
inline f-string `f"Member: {member}"` of line 417 is the same string as
`make_shape_name member`.) -/
def add_one_boat (colors : Colors) (slide : List Shape)
    (boat : ReconciledBoat) : List Shape :=
  let shape_name := make_shape_name boat.member
  let p := ensured_shape slide shape_name boat
  let fillc := if boat.requested then colors.reserved else colors.declined
  modifyAt (fun sh => { sh with text := boatCaption boat })
    p.1 (modifyAt (fun sh => { sh with fill := fillc }) p.1 p.2)

/-- `add_boats_to_map` (platsplanering.py 407-449): the boat loop, then
`color_boats` over `list(set(ex_members))` (modelled in first-occurrence
order; the loop's final colour per shape does not depend on the
enumeration order of the set because every lookup for a given id targets
the same shape), then `color_boats` over `already_there`, then the
residual-`"Rectangle"` recolour pass. -/
def add_boats_to_map (colors : Colors) (slide : List Shape)
    (boats : List ReconciledBoat) (already_there : List Int)
    (ex_members : List Int) : List Shape :=
  let s1 := boats.foldl (add_one_boat colors) slide
  let s2 := color_boats s1 ex_members.eraseDups colors.member_left
  let s3 := color_boats s2 already_there colors.on_land
  s3.map fun sh =>
    if strContains sh.name "Rectangle" then { sh with fill := colors.unknown }
    else sh

/-- The Map Colorizer sequence of the `__main__` block:
`mark_all_boats_as_unhandled` followed by `add_boats_to_map`. -/
def markAndAdd (colors : Colors) (slide : List Shape)
    (boats : List ReconciledBoat) (already_there : List Int)
    (ex_members : List Int) : List Shape :=
  add_boats_to_map colors (mark_all_boats_as_unhandled colors slide) boats
    already_there ex_members

/-! ### Write-effect functions for the Map Colorizer passes

For a deck whose list of shape names is `N` and in which every lookup of
the run succeeds by exact name, each pass of
`mark_all_boats_as_unhandled` / `add_boats_to_map` acts on the shape at
position `j` by a function of `N`, `j` and the run's inputs only.  The
functions below are those per-position write effects; they drive the
idempotence proof. -/

/-- Does the name at position `j` of the name list contain `needle`? -/
def nameHas (N : List String) (j : Nat) (needle : String) : Bool :=
  match N[j]? with
  | some nm => strContains nm needle
  | none => false

/-- Position of the first exact occurrence of name `n` in the name list. -/
def eIdx (N : List String) (n : String) : Option Nat :=
  findIdxO (fun nm => nm == n) N

/-- Write effect of `mark_all_boats_as_unhandled` at position `j`. -/
def stMark (colors : Colors) (N : List String) (j : Nat) : Shape → Shape :=
  if nameHas N j "Member:" then fun sh => { sh with fill := colors.unknown }
  else id

/-- Write effect of one boat iteration of `add_boats_to_map` at position
`j` (when the boat's shape exists by exact name). -/
def stBoat1 (colors : Colors) (N : List String) (j : Nat)
    (b : ReconciledBoat) : Shape → Shape :=
  if eIdx N (make_shape_name b.member) == some j then fun sh =>
    { sh with
      name := make_shape_name b.member
      text := boatCaption b
      fill := if b.requested then colors.reserved else colors.declined
      width := b.length * 5
      height := b.width * 5 }
  else id

/-- Write effect of the whole boat loop at position `j`. -/
def stBoats (colors : Colors) (N : List String) (j : Nat) :
    List ReconciledBoat → Shape → Shape
  | [] => id
  | b :: bs => stBoats colors N j bs ∘ stBoat1 colors N j b

/-- Write effect of one `color_boats` iteration at position `j` (when the
member's shape exists by exact name). -/
def stCb1 (color : RGB) (N : List String) (j : Nat) (m : Int) :
    Shape → Shape :=
  if eIdx N (make_shape_name m) == some j then fun sh =>
    { sh with fill := color, name := make_shape_name m }
  else id

/-- Write effect of a whole `color_boats` pass at position `j`. -/
def stColor (color : RGB) (N : List String) (j : Nat) :
    List Int → Shape → Shape
  | [] => id
  | m :: ms => stColor color N j ms ∘ stCb1 color N j m

/-- Write effect of the residual-`"Rectangle"` pass at position `j`. -/
def stRect (colors : Colors) (N : List String) (j : Nat) : Shape → Shape :=
  if nameHas N j "Rectangle" then fun sh => { sh with fill := colors.unknown }
  else id

/-- Write effect of the whole `markAndAdd` run at position `j`. -/
def phiMap (colors : Colors) (N : List String)
    (boats : List ReconciledBoat) (already_there : List Int)
    (ex_members : List Int) (j : Nat) : Shape → Shape :=
  stRect colors N j ∘ stColor colors.on_land N j already_there ∘
    stColor colors.member_left N j ex_members.eraseDups ∘
    stBoats colors N j boats ∘ stMark colors N j

/-- A shape transformer that writes a constant (or nothing) into each
field: the shape of every per-position write effect. -/
def ConstOrId (f : Shape → Shape) : Prop :=
  ∃ wn wt : Option String, ∃ wf : Option RGB, ∃ ww wh : Option ℚ,
    ∀ sh, f sh = ⟨wn.getD sh.name, wt.getD sh.text, wf.getD sh.fill,
      ww.getD sh.width, wh.getD sh.height⟩

/-- `f` does not change the name of the shape sitting at position `j`
(whose name is `N[j]`). -/
def NamePres (N : List String) (j : Nat) (f : Shape → Shape) : Prop :=
  ∀ sh : Shape, N[j]? = some sh.name → (f sh).name = sh.name

/-! ### Heap-level model of `get_boats` (`pyGetBoats`)

The record-level `get_boats` above captures the returned value.  The
source additionally mutates two of its arguments in place: it appends to
`requested_spots`, and the `for member in requests:` loop mutates the
member dicts themselves — `requests` holds references to the same dict
objects as `members`, so `member.pop(...)` / `member[...] = ...` is
visible through the caller's `members` list.  To make that observable,
this model represents rows as insertion-ordered dicts and returns the
post-state of the member store next to the result and the merged request
list. -/

/-- A Python value stored in a member dict. -/
inductive PyV where
  | vint (n : Int)
  | vstr (s : String)
  | vrat (q : ℚ)
  | vbool (b : Bool)
deriving DecidableEq, BEq, Repr

/-- An insertion-ordered Python dict with string keys. -/
abbrev Dict := List (String × PyV)

/-- `d[k]` (`None` = `KeyError`). -/
def dictGet? (d : Dict) (k : String) : Option PyV :=
  (d.find? fun p => p.1 == k).map Prod.snd

/-- `d.pop(k)`: the value and the dict without the key. -/
def dictPop (d : Dict) (k : String) : Option (PyV × Dict) :=
  (dictGet? d k).map fun v => (v, d.filter fun p => !(p.1 == k))

/-- `d[k] = v`: overwrite in place, or append a new key (insertion
order). -/
def dictSet (d : Dict) (k : String) (v : PyV) : Dict :=
  if d.any fun p => p.1 == k then
    d.map fun p => if p.1 == k then (k, v) else p
  else d ++ [(k, v)]

/-- `int(x)` on the values a member-id cell can carry (floats truncate
toward zero; a non-numeric string raises). -/
def pyInt? : PyV → Option Int
  | .vint n => some n
  | .vbool b => some (if b then 1 else 0)
  | .vrat q => some (q.num / (q.den : Int))
  | .vstr s =>
    if s.data ≠ [] && s.data.all Char.isDigit then some (digitsVal s.data)
    else none

/-- `x.replace(...)` requires a `str` (otherwise `AttributeError`). -/
def asStr : PyV → Option String
  | .vstr s => some s
  | _ => none

/-- `f"{x}"` (total `str()`; only the `vstr` case occurs in the modelled
runs). -/
def pyStr : PyV → String
  | .vstr s => s
  | .vint n => toString n
  | .vbool b => if b then "True" else "False"
  | .vrat q => toString q

/-- Python `v in ids` for a dict value against a list of ints
(`True == 1`, `7.0 == 7`; a string never equals an int). -/
def memberIdMatches (v : PyV) (ids : List Int) : Bool :=
  match v with
  | .vint n => ids.contains n
  | .vbool b => ids.contains (if b then 1 else 0)
  | .vrat q => ids.any fun n => ((n : ℚ) == q)
  | .vstr _ => false

/-- The body of `for member in requests:` (platsplanering.py 315-325) on
the dict representation: pop `Medlemsnr`/`Längd (båt)`/`Bredd`/
`Efternamn`, install `member`/`length`/`width`/`name`/`requested`. -/
def pyTransform (d : Dict) (no_spot_requested : List Int) : Option Dict := do
  let p1 ← dictPop d "Medlemsnr"
  let m ← pyInt? p1.1
  let d1 := dictSet p1.2 "member" (.vint m)
  let p2 ← dictPop d1 "Längd (båt)"
  let ls ← asStr p2.1
  let l ← pyFloat? (commaToDot ls)
  let d2 := dictSet p2.2 "length" (.vrat (l + 1))
  let p3 ← dictPop d2 "Bredd"
  let ws ← asStr p3.1
  let w0 ← pyFloat? (commaToDot ws)
  let d3 := dictSet p3.2 "width" (.vrat ((⌈(w0 + 1) * 2⌉ : ℚ) / 2))
  let p4 ← dictPop d3 "Efternamn"
  let d4 := dictSet p4.2 "name" (.vstr (pyStr p4.1))
  some (dictSet d4 "requested" (.vbool (decide (m ∉ no_spot_requested))))

/-- `Option`-valued left fold (the mutating loop; a raised exception
aborts). -/
def optFold (f : γ → α → Option γ) : List α → γ → Option γ
  | [], acc => some acc
  | a :: as, acc =>
    match f acc a with
    | some acc2 => optFold f as acc2
    | none => none

/-- One mutation step of the loop: transform the dict at position `i` of
the member store in place. -/
def transformStep (no_spot_requested : List Int) (st : List Dict) (i : Nat) :
    Option (List Dict) :=
  match st[i]? with
  | some d0 => (pyTransform d0 no_spot_requested).map fun d1 => st.set i d1
  | none => none

/-- Last-write-wins deduplication of the transformed dicts, keyed by
`d["member"]` (`list({boat["member"]: boat for boat in requests}.values())`). -/
def pyDedup (requests : List Dict) : List Dict :=
  (requests.foldl (fun acc d =>
    let key := dictGet? d "member"
    if acc.any fun p => p.1 == key then
      acc.map fun p => if p.1 == key then (key, d) else p
    else acc ++ [(key, d)]) []).map Prod.snd

/-- `get_boats` at the heap level: returns the reconciled list **and**
the post-states of the two objects the source mutates — the merged
`requested_spots` list and the member store.  (`already_there`,
`scheduled` and `no_spot_requested` are only read by the source, so they
have no post-state.)  `none` models an uncaught exception. -/
def pyGetBoats (members : List Dict)
    (already_there scheduled no_spot_requested requested_spots : List Int) :
    Option (List Dict × List Int × List Dict) := do
  let merged := addMissing (addMissing requested_spots scheduled) already_there
  let ids ← mapOption (fun d => dictGet? d "Medlemsnr") members
  let survIdx := (List.range members.length).filter fun i =>
    match ids[i]? with
    | some v => memberIdMatches v merged
    | none => false
  let store ← optFold (transformStep no_spot_requested) survIdx members
  let requests ← mapOption (fun i => store[i]?) survIdx
  some (pyDedup requests, merged, store)

/-! ### Concrete inputs used by witnesses and counterexamples -/

/-- A member row for the C10 counterexample, as read from the member
file (column order of `read_members`). -/
def memDict0 : Dict :=
  [("Medlemsnr", .vint 7), ("Längd (båt)", .vstr "5,0"),
   ("Bredd", .vstr "2,0"), ("Förnamn", .vstr "A"),
   ("Efternamn", .vstr "B"), ("Plats", .vstr "")]

/-- The same row after the reconciliation loop mutated it in place. -/
def memMutated0 : Dict :=
  [("Förnamn", .vstr "A"), ("Plats", .vstr ""), ("member", .vint 7),
   ("length", .vrat 6), ("width", .vrat 3), ("name", .vstr "B"),
   ("requested", .vbool true)]

/-- Witness member table (the scenario from the spec: requests
{100, 101}, scheduled {102}, no-spot {101}). -/
def memberTable0 : List MemberRec :=
  [⟨100, "5,0", "2,0", "Anna", "Aa", ""⟩,
   ⟨101, "6.0", "2.5", "Bo", "Bb", ""⟩,
   ⟨102, "7", "3,2", "Curt", "Cc", ""⟩]

/-- Witness output of `get_boats` on the scenario. -/
def boats0 : List ReconciledBoat :=
  [⟨100, 6, 3, "Aa", true⟩, ⟨101, 7, 7/2, "Bb", false⟩,
   ⟨102, 8, 9/2, "Cc", true⟩]

/-- Witness slide for C7/C9: one shape whose text mentions another
member. -/
def deck9 : List Shape :=
  [⟨"Member: 999", "Member: 999 Andersson", ⟨9, 9, 9⟩, 1, 1⟩]

/-- Witness slide for C8: one shape, for member 7 only. -/
def deck8 : List Shape :=
  [⟨"Member: 7", "", ⟨9, 9, 9⟩, 1, 1⟩]

/-- Counterexample deck for C6: one shape, named for member 41. -/
def deckC6 : List Shape :=
  [⟨"Member: 41", "", ⟨0, 0, 0⟩, 1, 1⟩]

/-- Counterexample boats for C6: the caption written for member 41
(`"41 A\n5.0x2.0"`) contains the digit token `"1"`, so member 1's lookup
steals member 41's shape through the text fallback. -/
def boatsC6 : List ReconciledBoat :=
  [⟨41, 5, 2, "A", true⟩, ⟨1, 3, 2, "B", true⟩]

/-- Witness deck for the amended C6: the boat's shape exists by exact
name. -/
def deckC6w : List Shape :=
  [⟨"Member: 7", "", ⟨0, 0, 0⟩, 1, 1⟩]

/-- Witness boats for the amended C6. -/
def boatsC6w : List ReconciledBoat :=
  [⟨7, 4, 2, "X", true⟩]

/-! ## Lemmas and theorems -/

/-! ### Basic lemmas about `addMissing`, `mapOption`, `upsertBoat` -/

theorem addMissing_nil (base : List Int) : addMissing base [] = base := rfl

theorem addMissing_cons (base : List Int) (y : Int) (ys : List Int) :
    addMissing base (y :: ys) =
      addMissing (if y ∈ base then base else base ++ [y]) ys := rfl

theorem mem_addMissing {x : Int} :
    ∀ {xs base : List Int}, x ∈ addMissing base xs ↔ x ∈ base ∨ x ∈ xs := by
  intro xs
  induction xs with
  | nil => simp [addMissing_nil]
  | cons y ys ih =>
    intro base
    rw [addMissing_cons]
    by_cases hy : y ∈ base
    · simp only [if_pos hy, ih, List.mem_cons]
      constructor
      · rintro (hb | hys)
        · exact Or.inl hb
        · exact Or.inr (Or.inr hys)
      · rintro (hb | rfl | hys)
        · exact Or.inl hb
        · exact Or.inl hy
        · exact Or.inr hys
    · simp only [if_neg hy, ih, List.mem_append, List.mem_singleton, List.mem_cons]
      tauto

theorem mapOption_nil (f : α → Option β) : mapOption f [] = some [] := rfl

theorem mapOption_cons (f : α → Option β) (a : α) (as : List α) :
    mapOption f (a :: as) =
      match f a, mapOption f as with
      | some b, some bs => some (b :: bs)
      | _, _ => none := rfl

theorem mapOption_mem {f : α → Option β} :
    ∀ {l : List α} {bl : List β}, mapOption f l = some bl →
      ∀ b ∈ bl, ∃ a ∈ l, f a = some b := by
  intro l
  induction l with
  | nil =>
    intro bl h b hb
    simp only [mapOption_nil, Option.some.injEq] at h
    subst h
    simp at hb
  | cons a as ih =>
    intro bl h b hb
    rw [mapOption_cons] at h
    cases hfa : f a with
    | none => rw [hfa] at h; simp at h
    | some b0 =>
      rw [hfa] at h
      cases hrest : mapOption f as with
      | none => rw [hrest] at h; simp at h
      | some bs =>
        rw [hrest] at h
        simp only [Option.some.injEq] at h
        subst h
        rcases List.mem_cons.mp hb with rfl | hb2
        · exact ⟨a, List.mem_cons_self a as, hfa⟩
        · obtain ⟨a2, ha2, hfa2⟩ := ih hrest b hb2
          exact ⟨a2, List.mem_cons_of_mem a ha2, hfa2⟩

theorem mapOption_map_eq {f : α → Option β} {g : β → γ} {h : α → γ}
    (hcomm : ∀ a b, f a = some b → g b = h a) :
    ∀ {l : List α} {bl : List β}, mapOption f l = some bl →
      bl.map g = l.map h := by
  intro l
  induction l with
  | nil =>
    intro bl hm
    simp only [mapOption_nil, Option.some.injEq] at hm
    subst hm
    simp
  | cons a as ih =>
    intro bl hm
    rw [mapOption_cons] at hm
    cases hfa : f a with
    | none => rw [hfa] at hm; simp at hm
    | some b0 =>
      rw [hfa] at hm
      cases hrest : mapOption f as with
      | none => rw [hrest] at hm; simp at hm
      | some bs =>
        rw [hrest] at hm
        simp only [Option.some.injEq] at hm
        subst hm
        simp only [List.map_cons, ih hrest, hcomm a b0 hfa]

theorem mapOption_getLast {f : α → Option β} :
    ∀ {l : List α} {bl : List β}, mapOption f l = some bl →
      ∀ b, bl.getLast? = some b → ∃ a, l.getLast? = some a ∧ f a = some b := by
  intro l
  induction l with
  | nil =>
    intro bl hm b hb
    simp only [mapOption_nil, Option.some.injEq] at hm
    subst hm
    simp at hb
  | cons a as ih =>
    intro bl hm b hb
    rw [mapOption_cons] at hm
    cases hfa : f a with
    | none => rw [hfa] at hm; simp at hm
    | some b0 =>
      rw [hfa] at hm
      cases hrest : mapOption f as with
      | none => rw [hrest] at hm; simp at hm
      | some bs =>
        rw [hrest] at hm
        simp only [Option.some.injEq] at hm
        subst hm
        cases bs with
        | nil =>
          cases as with
          | nil =>
            simp only [List.getLast?_singleton, Option.some.injEq] at hb
            subst hb
            exact ⟨a, by simp, hfa⟩
          | cons a2 as2 =>
            rw [mapOption_cons] at hrest
            cases hfa2 : f a2 with
            | none => rw [hfa2] at hrest; simp at hrest
            | some bb =>
              rw [hfa2] at hrest
              cases hr2 : mapOption f as2 with
              | none => rw [hr2] at hrest; simp at hrest
              | some l2 => rw [hr2] at hrest; simp at hrest
        | cons b1 bs1 =>
          rw [List.getLast?_cons_cons] at hb
          obtain ⟨a2, ha2, hfa2⟩ := ih hrest b hb
          cases as with
          | nil => simp at ha2
          | cons a3 as3 =>
            rw [List.getLast?_cons_cons]
            exact ⟨a2, ha2, hfa2⟩

/-- **C1.** The claim says that an element whose digit-stripped remainder
fails integer parsing is dropped from the output, never aborting the run.
The code instead leaves the original string in the list (the assignment
inside the `try` never happens), so: on `[1, "abc"]` the final
`sorted(...)` compares an `int` with a `str` and raises `TypeError`
(the run aborts), and on `["abc"]` the function returns `["abc"]` — the
unparseable element is not dropped.  The digit-extraction, deduplication
and sorting behaviour on convertible input is as claimed
(`"KM-1234x"` yields `1234`). -/
theorem make_items_integer_bug :
    make_items_integer [.i 1, .s "abc"] = .error ()
    ∧ make_items_integer [.s "abc"] = .ok [.s "abc"]
    ∧ make_items_integer [.s "KM-1234x", .i 5, .i 5] = .ok [.i 5, .i 1234] :=
  ⟨rfl, rfl, rfl⟩

/-! ### Lemmas about the keyed deduplication (`upsertBoat`, `dedupLastWins`) -/

theorem upsertBoat_map_fst (acc : List (Int × ReconciledBoat)) (b : ReconciledBoat) :
    (upsertBoat acc b).map Prod.fst =
      if b.member ∈ acc.map Prod.fst then acc.map Prod.fst
      else acc.map Prod.fst ++ [b.member] := by
  unfold upsertBoat
  by_cases hmem : b.member ∈ acc.map Prod.fst
  · have hany : (acc.any fun p => p.1 = b.member) = true := by
      simp only [List.any_eq_true, decide_eq_true_eq]
      obtain ⟨p, hp, hfst⟩ := List.mem_map.mp hmem
      exact ⟨p, hp, hfst⟩
    rw [if_pos hany, if_pos hmem, List.map_map]
    apply List.map_congr_left
    intro p _
    by_cases hp : p.1 = b.member <;> simp [hp]
  · have hany : (acc.any fun p => p.1 = b.member) = false := by
      simp only [List.any_eq_false, decide_eq_true_eq]
      intro p hp hfst
      exact hmem (List.mem_map.mpr ⟨p, hp, hfst⟩)
    rw [if_neg (by simp [hany]), if_neg hmem]
    simp

theorem upsertBoat_snd_member (acc : List (Int × ReconciledBoat)) (b : ReconciledBoat)
    (hinv : ∀ p ∈ acc, p.2.member = p.1) :
    ∀ p ∈ upsertBoat acc b, p.2.member = p.1 := by
  intro p hp
  unfold upsertBoat at hp
  split at hp
  · obtain ⟨q, hq, hqe⟩ := List.mem_map.mp hp
    split at hqe
    · next heq =>
      subst hqe
      simpa using heq.symm
    · subst hqe
      exact hinv q hq
  · rcases List.mem_append.mp hp with hacc | hnew
    · exact hinv p hacc
    · simp only [List.mem_singleton] at hnew
      subst hnew
      rfl

theorem upsertBoat_snd_source (acc : List (Int × ReconciledBoat)) (b : ReconciledBoat) :
    ∀ p ∈ upsertBoat acc b, p.2 ∈ acc.map Prod.snd ∨ p.2 = b := by
  intro p hp
  unfold upsertBoat at hp
  split at hp
  · obtain ⟨q, hq, hqe⟩ := List.mem_map.mp hp
    split at hqe
    · subst hqe; exact Or.inr rfl
    · subst hqe; exact Or.inl (List.mem_map.mpr ⟨q, hq, rfl⟩)
  · rcases List.mem_append.mp hp with hacc | hnew
    · exact Or.inl (List.mem_map.mpr ⟨p, hacc, rfl⟩)
    · simp only [List.mem_singleton] at hnew
      subst hnew
      exact Or.inr rfl

theorem foldl_upsert_snd_member :
    ∀ (bs : List ReconciledBoat) (acc : List (Int × ReconciledBoat)),
      (∀ p ∈ acc, p.2.member = p.1) →
      ∀ p ∈ bs.foldl upsertBoat acc, p.2.member = p.1 := by
  intro bs
  induction bs with
  | nil => intro acc hinv p hp; exact hinv p hp
  | cons b bs ih =>
    intro acc hinv p hp
    exact ih (upsertBoat acc b) (upsertBoat_snd_member acc b hinv) p hp

theorem foldl_upsert_mem_fst :
    ∀ (bs : List ReconciledBoat) (acc : List (Int × ReconciledBoat)) (k : Int),
      (k ∈ (bs.foldl upsertBoat acc).map Prod.fst ↔
        k ∈ acc.map Prod.fst ∨ k ∈ bs.map ReconciledBoat.member) := by
  intro bs
  induction bs with
  | nil => intro acc k; simp
  | cons b bs ih =>
    intro acc k
    simp only [List.foldl_cons, ih, List.map_cons, List.mem_cons]
    rw [upsertBoat_map_fst]
    by_cases hmem : b.member ∈ acc.map Prod.fst
    · rw [if_pos hmem]
      constructor
      · rintro (hacc | hbs)
        · exact Or.inl hacc
        · exact Or.inr (Or.inr hbs)
      · rintro (hacc | rfl | hbs)
        · exact Or.inl hacc
        · exact Or.inl hmem
        · exact Or.inr hbs
    · rw [if_neg hmem]
      simp only [List.mem_append, List.mem_singleton]
      tauto

theorem foldl_upsert_nodup_fst :
    ∀ (bs : List ReconciledBoat) (acc : List (Int × ReconciledBoat)),
      (acc.map Prod.fst).Nodup → ((bs.foldl upsertBoat acc).map Prod.fst).Nodup := by
  intro bs
  induction bs with
  | nil => intro acc h; exact h
  | cons b bs ih =>
    intro acc hnd
    refine ih (upsertBoat acc b) ?_
    rw [upsertBoat_map_fst]
    by_cases hmem : b.member ∈ acc.map Prod.fst
    · rwa [if_pos hmem]
    · rw [if_neg hmem]
      simp [List.nodup_append, hnd, hmem]

theorem foldl_upsert_snd_source :
    ∀ (bs : List ReconciledBoat) (acc : List (Int × ReconciledBoat)),
      ∀ p ∈ bs.foldl upsertBoat acc, p.2 ∈ acc.map Prod.snd ∨ p.2 ∈ bs := by
  intro bs
  induction bs with
  | nil =>
    intro acc p hp
    exact Or.inl (List.mem_map.mpr ⟨p, hp, rfl⟩)
  | cons b bs ih =>
    intro acc p hp
    rcases ih (upsertBoat acc b) p hp with hacc | hbs
    · obtain ⟨q, hq, hqe⟩ := List.mem_map.mp hacc
      rcases upsertBoat_snd_source acc b q hq with hsrc | hsrc
      · left; rw [← hqe]; exact hsrc
      · right; rw [← hqe, hsrc]; exact List.mem_cons_self b bs
    · exact Or.inr (List.mem_cons_of_mem b hbs)

theorem foldl_upsert_last_wins :
    ∀ (bs : List ReconciledBoat) (acc : List (Int × ReconciledBoat)) (k : Int)
      (v : ReconciledBoat), (k, v) ∈ bs.foldl upsertBoat acc →
      (bs.filter (fun b => b.member = k)).getLast? = some v ∨
        ((bs.filter fun b => b.member = k) = [] ∧ (k, v) ∈ acc) := by
  intro bs
  induction bs with
  | nil =>
    intro acc k v hp
    exact Or.inr ⟨rfl, hp⟩
  | cons b bs ih =>
    intro acc k v hp
    rcases ih (upsertBoat acc b) k v hp with hlast | ⟨hempty, hacc⟩
    · left
      rw [List.filter_cons]
      split
      · next hb =>
        have hne : bs.filter (fun b => b.member = k) ≠ [] := by
          intro hcon
          rw [hcon] at hlast
          simp at hlast
        cases hfbs : bs.filter (fun b => b.member = k) with
        | nil => exact absurd hfbs hne
        | cons c cs =>
          rw [hfbs] at hlast
          rw [List.getLast?_cons_cons]
          exact hlast
      · exact hlast
    · rw [List.filter_cons]
      by_cases hb : b.member = k
      · left
        rw [if_pos (by simpa using hb), hempty]
        unfold upsertBoat at hacc
        split at hacc
        · obtain ⟨q, hq, hqe⟩ := List.mem_map.mp hacc
          by_cases hq1 : q.1 = b.member
          · rw [if_pos hq1] at hqe
            have hvb : b = v := congrArg Prod.snd hqe
            simp [hvb]
          · rw [if_neg hq1] at hqe
            exfalso
            apply hq1
            rw [hqe]
            exact hb.symm
        · rcases List.mem_append.mp hacc with hin | hnew
          · next hany =>
            exfalso
            simp only [List.any_eq_true, decide_eq_true_eq, not_exists] at hany
            exact hany (k, v) ⟨hin, by simpa using hb.symm⟩
          · simp only [List.mem_singleton, Prod.mk.injEq] at hnew
            simp [hnew.2]
      · right
        rw [if_neg (by simpa using hb)]
        refine ⟨hempty, ?_⟩
        unfold upsertBoat at hacc
        split at hacc
        · obtain ⟨q, hq, hqe⟩ := List.mem_map.mp hacc
          by_cases hq1 : q.1 = b.member
          · rw [if_pos hq1] at hqe
            exfalso
            apply hb
            rw [← hq1]
            exact congrArg Prod.fst hqe
          · rw [if_neg hq1] at hqe
            rwa [hqe] at hq
        · rcases List.mem_append.mp hacc with hin | hnew
          · exact hin
          · exfalso
            simp only [List.mem_singleton, Prod.mk.injEq] at hnew
            exact hb hnew.1.symm

theorem dedupLastWins_sub {bs : List ReconciledBoat} :
    ∀ b ∈ dedupLastWins bs, b ∈ bs := by
  intro b hb
  unfold dedupLastWins at hb
  obtain ⟨p, hp, hpe⟩ := List.mem_map.mp hb
  rcases foldl_upsert_snd_source bs [] p hp with hacc | hsrc
  · simp at hacc
  · rw [← hpe]; exact hsrc

theorem dedupLastWins_map_member (bs : List ReconciledBoat) :
    (dedupLastWins bs).map ReconciledBoat.member =
      (bs.foldl upsertBoat []).map Prod.fst := by
  unfold dedupLastWins
  rw [List.map_map]
  apply List.map_congr_left
  intro p hp
  exact foldl_upsert_snd_member bs [] (by simp) p hp

theorem dedupLastWins_nodup (bs : List ReconciledBoat) :
    ((dedupLastWins bs).map ReconciledBoat.member).Nodup := by
  rw [dedupLastWins_map_member]
  exact foldl_upsert_nodup_fst bs [] (by simp)

theorem dedupLastWins_mem_member (bs : List ReconciledBoat) (k : Int) :
    k ∈ (dedupLastWins bs).map ReconciledBoat.member ↔
      k ∈ bs.map ReconciledBoat.member := by
  rw [dedupLastWins_map_member]
  rw [foldl_upsert_mem_fst bs [] k]
  simp

theorem dedupLastWins_last_wins {bs : List ReconciledBoat} :
    ∀ b ∈ dedupLastWins bs,
      (bs.filter fun c => c.member = b.member).getLast? = some b := by
  intro b hb
  unfold dedupLastWins at hb
  obtain ⟨p, hp, hpe⟩ := List.mem_map.mp hb
  have hkey : p.2.member = p.1 := foldl_upsert_snd_member bs [] (by simp) p hp
  have hp2 : (p.1, p.2) ∈ bs.foldl upsertBoat [] := by simpa using hp
  rcases foldl_upsert_last_wins bs [] p.1 p.2 hp2 with hlast | ⟨_, hacc⟩
  · rw [← hkey] at hlast
    rw [← hpe]
    exact hlast
  · simp at hacc

theorem dedupLastWins_length (bs : List ReconciledBoat) :
    (dedupLastWins bs).length = (bs.map ReconciledBoat.member).toFinset.card := by
  have h1 : (dedupLastWins bs).length =
      ((dedupLastWins bs).map ReconciledBoat.member).length := by
    rw [List.length_map]
  rw [h1, ← List.Nodup.dedup (dedupLastWins_nodup bs), ← List.card_toFinset]
  congr 1
  apply Finset.ext
  intro k
  simp only [List.mem_toFinset]
  exact dedupLastWins_mem_member bs k

/-! ### Lemmas about `transformMember` and the surviving-row projection -/

theorem transformMember_spec {m : MemberRec} {ns : List Int} {b : ReconciledBoat}
    (h : transformMember m ns = some b) :
    b.member = m.medlemsnr ∧ b.name = m.efternamn ∧
      b.requested = decide (m.medlemsnr ∉ ns) ∧
      ∃ l w, pyFloat? (commaToDot m.langd) = some l ∧
        pyFloat? (commaToDot m.bredd) = some w ∧
        b.length = l + 1 ∧ b.width = (⌈(w + 1) * 2⌉ : ℚ) / 2 := by
  unfold transformMember at h
  cases hl : pyFloat? (commaToDot m.langd) with
  | none => rw [hl] at h; simp at h
  | some l =>
    rw [hl] at h
    cases hw : pyFloat? (commaToDot m.bredd) with
    | none => rw [hw] at h; simp at h
    | some w =>
      rw [hw] at h
      simp only [Option.bind_eq_bind, Option.some_bind, Option.some.injEq] at h
      subst h
      exact ⟨rfl, rfl, rfl, l, w, rfl, rfl, rfl, rfl⟩

theorem map_filter_comp (f : α → β) (p : β → Bool) (l : List α) :
    (l.filter fun a => p (f a)).map f = (l.map f).filter p := by
  induction l with
  | nil => rfl
  | cons a as ih =>
    simp only [List.filter_cons, List.map_cons]
    by_cases h : p (f a) <;> simp [h, ih]

theorem toFinset_filter_eq (l : List Int) (p : Int → Bool) :
    (l.filter p).toFinset = l.toFinset.filter fun x => p x = true := by
  ext x
  simp [List.mem_filter]

theorem mapOption_filter {f : α → Option β} {p : α → Bool} {q : β → Bool}
    (hpq : ∀ a b, f a = some b → q b = p a) :
    ∀ {l : List α} {bl : List β}, mapOption f l = some bl →
      mapOption f (l.filter p) = some (bl.filter q) := by
  intro l
  induction l with
  | nil =>
    intro bl hm
    simp only [mapOption_nil, Option.some.injEq] at hm
    subst hm
    rfl
  | cons a as ih =>
    intro bl hm
    rw [mapOption_cons] at hm
    cases hfa : f a with
    | none => rw [hfa] at hm; simp at hm
    | some b0 =>
      rw [hfa] at hm
      cases hrest : mapOption f as with
      | none => rw [hrest] at hm; simp at hm
      | some bs =>
        rw [hrest] at hm
        simp only [Option.some.injEq] at hm
        subst hm
        rw [List.filter_cons, List.filter_cons]
        by_cases hpa : p a
        · rw [if_pos (by simpa using hpa), if_pos (by simp [hpq a b0 hfa, hpa])]
          rw [mapOption_cons, hfa, ih hrest]
        · rw [if_neg (by simpa using hpa), if_neg (by simp [hpq a b0 hfa, hpa])]
          exact ih hrest

theorem get_boats_unfold {members : List MemberRec}
    {already_there scheduled no_spot_requested requested_spots : List Int}
    {res : List ReconciledBoat}
    (h : get_boats members already_there scheduled no_spot_requested
      requested_spots = some res) :
    ∃ bs, mapOption (fun m => transformMember m no_spot_requested)
        (members.filter fun b => b.medlemsnr ∈
          addMissing (addMissing requested_spots scheduled) already_there) = some bs
      ∧ res = dedupLastWins bs := by
  unfold get_boats at h
  rw [Option.map_eq_some'] at h
  obtain ⟨bs, h1, h2⟩ := h
  exact ⟨bs, h1, h2.symm⟩

/-- **C2.** For every reconciliation run of `get_boats` (that completes
without a parse error), the number of `ReconciledBoat` entries in the
output equals the number of unique member ids in
requests ∪ scheduled ∪ on-land that also occur as a `Medlemsnr` in the
member table; every output entry's id occurs in the member table (ids
absent from it are excluded), output entries are unique per member id,
and duplicate member-table rows are collapsed by last-write-wins (the
surviving entry is the transform of the last member row with that id). -/
theorem get_boats_count (members : List MemberRec)
    (already_there scheduled no_spot_requested requested_spots : List Int)
    (res : List ReconciledBoat)
    (h : get_boats members already_there scheduled no_spot_requested
      requested_spots = some res) :
    res.length = (((requested_spots ++ scheduled ++ already_there).filter
        fun id => id ∈ members.map MemberRec.medlemsnr).dedup).length
    ∧ (∀ b ∈ res, b.member ∈ members.map MemberRec.medlemsnr)
    ∧ (res.map ReconciledBoat.member).Nodup
    ∧ ∀ b ∈ res, ∃ m,
        (members.filter fun r => r.medlemsnr = b.member).getLast? = some m
        ∧ transformMember m no_spot_requested = some b := by
  obtain ⟨bs, hbs, hres⟩ := get_boats_unfold h
  subst hres
  have hmapeq : bs.map ReconciledBoat.member =
      (members.filter fun b => b.medlemsnr ∈
        addMissing (addMissing requested_spots scheduled) already_there).map
        MemberRec.medlemsnr :=
    mapOption_map_eq (fun a b hab => (transformMember_spec hab).1) hbs
  have hproj : (members.filter fun b => b.medlemsnr ∈
        addMissing (addMissing requested_spots scheduled) already_there).map
        MemberRec.medlemsnr =
      (members.map MemberRec.medlemsnr).filter fun id =>
        id ∈ addMissing (addMissing requested_spots scheduled) already_there :=
    map_filter_comp MemberRec.medlemsnr
      (fun id => decide (id ∈
        addMissing (addMissing requested_spots scheduled) already_there)) members
  have hmem_res : ∀ b ∈ dedupLastWins bs,
      b.member ∈ (members.map MemberRec.medlemsnr).filter fun id =>
        id ∈ addMissing (addMissing requested_spots scheduled) already_there := by
    intro b hb
    have h1 : b.member ∈ bs.map ReconciledBoat.member :=
      (dedupLastWins_mem_member bs b.member).mp
        (List.mem_map_of_mem ReconciledBoat.member hb)
    rwa [hmapeq, hproj] at h1
  refine ⟨?_, ?_, ?_, ?_⟩
  · rw [dedupLastWins_length bs, hmapeq, hproj, ← List.card_toFinset,
      toFinset_filter_eq, toFinset_filter_eq]
    have hBA : ((members.map MemberRec.medlemsnr).toFinset.filter fun x =>
        decide (x ∈ addMissing (addMissing requested_spots scheduled)
          already_there) = true) =
        (members.map MemberRec.medlemsnr).toFinset ∩
          (requested_spots ++ scheduled ++ already_there).toFinset := by
      ext x
      simp only [Finset.mem_filter, Finset.mem_inter, List.mem_toFinset,
        decide_eq_true_eq, mem_addMissing, List.mem_append]
    have hAB : ((requested_spots ++ scheduled ++ already_there).toFinset.filter
        fun x => decide (x ∈ members.map MemberRec.medlemsnr) = true) =
        (requested_spots ++ scheduled ++ already_there).toFinset ∩
          (members.map MemberRec.medlemsnr).toFinset := by
      ext x
      simp only [Finset.mem_filter, Finset.mem_inter, List.mem_toFinset,
        decide_eq_true_eq]
    rw [hBA, hAB, Finset.inter_comm]
  · intro b hb
    exact (List.mem_filter.mp (hmem_res b hb)).1
  · exact dedupLastWins_nodup bs
  · intro b hb
    have hlast := dedupLastWins_last_wins b hb
    have hmerged : b.member ∈
        addMissing (addMissing requested_spots scheduled) already_there := by
      have := (List.mem_filter.mp (hmem_res b hb)).2
      simpa using this
    have hfil := mapOption_filter
      (p := fun r : MemberRec => decide (r.medlemsnr = b.member))
      (q := fun c : ReconciledBoat => decide (c.member = b.member))
      (fun a bb hab => by simp [(transformMember_spec hab).1]) hbs
    have hsurvfil : ((members.filter fun bb => bb.medlemsnr ∈
        addMissing (addMissing requested_spots scheduled) already_there).filter
          fun r => r.medlemsnr = b.member) =
        members.filter fun r => r.medlemsnr = b.member := by
      rw [List.filter_filter]
      apply List.filter_congr
      intro a _
      by_cases ha : a.medlemsnr = b.member
      · simp [ha, hmerged]
      · simp [ha]
    rw [hsurvfil] at hfil
    obtain ⟨m, hm1, hm2⟩ := mapOption_getLast hfil b hlast
    exact ⟨m, hm1, hm2⟩

/-- **C3.** For every `ReconciledBoat` produced by `get_boats`, its
`requested` field is false iff its member id is in the no-spot set,
regardless of the scheduled / on-land sets (which do not occur in the
computation of `requested`). -/
theorem get_boats_requested_iff (members : List MemberRec)
    (already_there scheduled no_spot_requested requested_spots : List Int)
    (res : List ReconciledBoat)
    (h : get_boats members already_there scheduled no_spot_requested
      requested_spots = some res) :
    ∀ b ∈ res, (b.requested = false ↔ b.member ∈ no_spot_requested) := by
  obtain ⟨bs, hbs, hres⟩ := get_boats_unfold h
  subst hres
  intro b hb
  obtain ⟨m, _, hm⟩ := mapOption_mem hbs b (dedupLastWins_sub b hb)
  obtain ⟨hmem, _, hreq, _⟩ := transformMember_spec hm
  rw [hreq, hmem]
  by_cases hns : m.medlemsnr ∈ no_spot_requested <;> simp [hns]

/-- **C4.** Every member id in the scheduled set or the on-land set is
merged into the request set (`addMissing`), and consequently every
scheduled or on-land member id that is known in the member table appears
in the reconciled output rather than being dropped. -/
theorem get_boats_autoheal (members : List MemberRec)
    (already_there scheduled no_spot_requested requested_spots : List Int)
    (res : List ReconciledBoat)
    (h : get_boats members already_there scheduled no_spot_requested
      requested_spots = some res) :
    (∀ id : Int, id ∈ scheduled ∨ id ∈ already_there →
      id ∈ addMissing (addMissing requested_spots scheduled) already_there)
    ∧ ∀ id : Int, id ∈ scheduled ∨ id ∈ already_there →
        id ∈ members.map MemberRec.medlemsnr →
        id ∈ res.map ReconciledBoat.member := by
  obtain ⟨bs, hbs, hres⟩ := get_boats_unfold h
  subst hres
  have hmerge : ∀ id : Int, id ∈ scheduled ∨ id ∈ already_there →
      id ∈ addMissing (addMissing requested_spots scheduled) already_there := by
    intro id hid
    rcases hid with hs | hl
    · exact mem_addMissing.mpr (Or.inl (mem_addMissing.mpr (Or.inr hs)))
    · exact mem_addMissing.mpr (Or.inr hl)
  refine ⟨hmerge, ?_⟩
  intro id hid hknown
  have hmapeq : bs.map ReconciledBoat.member =
      (members.filter fun b => b.medlemsnr ∈
        addMissing (addMissing requested_spots scheduled) already_there).map
        MemberRec.medlemsnr :=
    mapOption_map_eq (fun a b hab => (transformMember_spec hab).1) hbs
  rw [dedupLastWins_mem_member, hmapeq,
    map_filter_comp MemberRec.medlemsnr
      (fun i => decide (i ∈
        addMissing (addMissing requested_spots scheduled) already_there)) members]
  rw [List.mem_filter]
  exact ⟨hknown, by simpa using hmerge id hid⟩

/-- **C5.** Every member record surviving reconciliation is transformed
with: length = raw length + 1, width = ceil(2·(raw width + 1))/2 (raw
width + 1 rounded up to the nearest half), name = surname, member id
taken from the row's `Medlemsnr` (coerced to an integer), and a decimal
comma in either dimension cell normalised to a period before float
parsing. -/
theorem get_boats_dimensions (members : List MemberRec)
    (already_there scheduled no_spot_requested requested_spots : List Int)
    (res : List ReconciledBoat)
    (h : get_boats members already_there scheduled no_spot_requested
      requested_spots = some res) :
    ∀ b ∈ res, ∃ m ∈ members, b.member = m.medlemsnr ∧ b.name = m.efternamn ∧
      ∃ l w, pyFloat? (commaToDot m.langd) = some l ∧
        pyFloat? (commaToDot m.bredd) = some w ∧
        b.length = l + 1 ∧ b.width = (⌈(w + 1) * 2⌉ : ℚ) / 2 := by
  obtain ⟨bs, hbs, hres⟩ := get_boats_unfold h
  subst hres
  intro b hb
  obtain ⟨m, hmem, hm⟩ := mapOption_mem hbs b (dedupLastWins_sub b hb)
  obtain ⟨h1, h2, _, l, w, hl, hw, h4, h5⟩ := transformMember_spec hm
  exact ⟨m, List.mem_of_mem_filter hmem, h1, h2, l, w, hl, hw, h4, h5⟩

theorem get_boats_scenario :
    get_boats memberTable0 [] [102] [101] [100, 101] = some boats0 := by
  with_unfolding_all rfl

/-- Witness for C2 at the spec scenario. -/
theorem get_boats_count_witness :
    boats0.length = ((([100, 101] ++ [102] ++ ([] : List Int)).filter
      fun id => id ∈ memberTable0.map MemberRec.medlemsnr).dedup).length :=
  (get_boats_count memberTable0 [] [102] [101] [100, 101] boats0
    get_boats_scenario).1

/-- Witness for C3 at the spec scenario, instantiated at the no-spot
member 101. -/
theorem get_boats_requested_iff_witness :
    ((⟨101, 7, 7/2, "Bb", false⟩ : ReconciledBoat).requested = false ↔
      (⟨101, 7, 7/2, "Bb", false⟩ : ReconciledBoat).member ∈ [(101 : Int)]) :=
  get_boats_requested_iff memberTable0 [] [102] [101] [100, 101] boats0
    get_boats_scenario ⟨101, 7, 7/2, "Bb", false⟩
    (by unfold boats0; exact List.mem_cons_of_mem _ (List.mem_cons_self _ _))

/-- Witness for C4 at the spec scenario (member 102 is scheduled but not
requested, known in the member table, and appears in the output). -/
theorem get_boats_autoheal_witness :
    (102 : Int) ∈ boats0.map ReconciledBoat.member :=
  (get_boats_autoheal memberTable0 [] [102] [101] [100, 101] boats0
    get_boats_scenario).2 102 (Or.inl (by simp)) (by simp [memberTable0])

/-- Witness for C5 at the spec scenario, instantiated at member 102
(dimension cells "7" and "3,2"). -/
theorem get_boats_dimensions_witness :
    ∃ m ∈ memberTable0,
      (⟨102, 8, 9/2, "Cc", true⟩ : ReconciledBoat).member = m.medlemsnr ∧
      (⟨102, 8, 9/2, "Cc", true⟩ : ReconciledBoat).name = m.efternamn ∧
      ∃ l w, pyFloat? (commaToDot m.langd) = some l ∧
        pyFloat? (commaToDot m.bredd) = some w ∧
        (⟨102, 8, 9/2, "Cc", true⟩ : ReconciledBoat).length = l + 1 ∧
        (⟨102, 8, 9/2, "Cc", true⟩ : ReconciledBoat).width =
          (⌈(w + 1) * 2⌉ : ℚ) / 2 :=
  get_boats_dimensions memberTable0 [] [102] [101] [100, 101] boats0
    get_boats_scenario ⟨102, 8, 9/2, "Cc", true⟩
    (by unfold boats0
        exact List.mem_cons_of_mem _
          (List.mem_cons_of_mem _ (List.mem_cons_self _ _)))

/-! ### Lemmas about `findIdxO`, `get_shapeIdx`, `get_shape` -/

theorem findIdxO_lt_length {p : α → Bool} :
    ∀ {l : List α} {i : Nat}, findIdxO p l = some i → i < l.length := by
  intro l
  induction l with
  | nil => intro i h; simp [findIdxO] at h
  | cons a as ih =>
    intro i h
    rw [findIdxO] at h
    by_cases hp : p a
    · rw [if_pos hp] at h
      simp only [Option.some.injEq] at h
      subst h
      simp
    · rw [if_neg hp] at h
      cases hrec : findIdxO p as with
      | none => rw [hrec] at h; simp at h
      | some j =>
        rw [hrec] at h
        simp only [Option.map_some', Option.some.injEq] at h
        subst h
        have := ih hrec
        simpa using Nat.succ_lt_succ this

theorem findIdxO_eq_none_iff {p : α → Bool} :
    ∀ {l : List α}, findIdxO p l = none ↔ ∀ x ∈ l, p x = false := by
  intro l
  induction l with
  | nil => simp [findIdxO]
  | cons a as ih =>
    rw [findIdxO]
    by_cases hp : p a
    · simp [hp]
    · simp only [if_neg hp, Option.map_eq_none', ih, List.mem_cons]
      constructor
      · intro h x hx
        rcases hx with rfl | hx
        · simpa using hp
        · exact h x hx
      · intro h x hx
        exact h x (Or.inr hx)

theorem findIdxO_spec {p : α → Bool} :
    ∀ {l : List α} {i : Nat}, findIdxO p l = some i →
      (∃ x, l[i]? = some x ∧ p x = true) ∧
        ∀ j, j < i → ∀ y, l[j]? = some y → p y = false := by
  intro l
  induction l with
  | nil => intro i h; simp [findIdxO] at h
  | cons a as ih =>
    intro i h
    rw [findIdxO] at h
    by_cases hp : p a
    · rw [if_pos hp] at h
      simp only [Option.some.injEq] at h
      subst h
      exact ⟨⟨a, by simp, hp⟩, fun j hj => by omega⟩
    · rw [if_neg hp] at h
      cases hrec : findIdxO p as with
      | none => rw [hrec] at h; simp at h
      | some j =>
        rw [hrec] at h
        simp only [Option.map_some', Option.some.injEq] at h
        subst h
        obtain ⟨⟨x, hx, hpx⟩, hbefore⟩ := ih hrec
        refine ⟨⟨x, by simpa using hx, hpx⟩, ?_⟩
        intro k hk y hy
        cases k with
        | zero =>
          simp only [List.getElem?_cons_zero, Option.some.injEq] at hy
          subst hy
          simpa using hp
        | succ k2 =>
          rw [List.getElem?_cons_succ] at hy
          exact hbefore k2 (by omega) y hy

theorem findIdxO_bind_eq_find {p : α → Bool} :
    ∀ l : List α, ((findIdxO p l).bind fun i => l[i]?) = l.find? p := by
  intro l
  induction l with
  | nil => simp [findIdxO]
  | cons a as ih =>
    rw [findIdxO, List.find?]
    by_cases hp : p a
    · simp [hp]
    · rw [if_neg hp]
      cases hrec : findIdxO p as with
      | none =>
        rw [hrec] at ih
        simp only [Option.bind] at ih
        simp [hp, ← ih]
      | some j =>
        rw [hrec] at ih
        simp only [Option.map_some', Option.some_bind, List.getElem?_cons_succ]
        simp only [Option.some_bind] at ih
        simp [hp, ih]

theorem get_shape_eq_bind (slide : List Shape) (n : String) :
    get_shape slide n = (get_shapeIdx slide n).bind fun i => slide[i]? := rfl

theorem get_shape_none_iff (slide : List Shape) (n : String) :
    get_shape slide n = none ↔ get_shapeIdx slide n = none := by
  constructor
  · intro h
    cases hidx : get_shapeIdx slide n with
    | none => rfl
    | some i =>
      exfalso
      have hlt : i < slide.length := by
        unfold get_shapeIdx at hidx
        cases hex : findIdxO (fun sh => sh.name == n) slide with
        | some j =>
          rw [hex] at hidx
          simp only [Option.some.injEq] at hidx
          subst hidx
          exact findIdxO_lt_length hex
        | none =>
          rw [hex] at hidx
          exact findIdxO_lt_length hidx
      rw [get_shape_eq_bind, hidx] at h
      simp only [Option.some_bind] at h
      rw [List.getElem?_eq_getElem hlt] at h
      simp at h
  · intro h
    rw [get_shape_eq_bind, h]
    rfl

/-- **C7.** `get_shape` first returns the (first) shape whose name equals
the requested name exactly if one exists; otherwise the first shape whose
visible text contains some whitespace token of the requested name as a
substring; otherwise nothing.  (`List.find? p` is the first element
satisfying `p`.) -/
theorem get_shape_policy (slide : List Shape) (n : String) :
    ((∃ sh ∈ slide, sh.name = n) →
      get_shape slide n = slide.find? fun sh => sh.name == n)
    ∧ ((∀ sh ∈ slide, sh.name ≠ n) →
      get_shape slide n = slide.find? (tokenMatch n))
    ∧ ((∀ sh ∈ slide, sh.name ≠ n ∧ tokenMatch n sh = false) →
      get_shape slide n = none) := by
  refine ⟨?_, ?_, ?_⟩
  · intro hex
    obtain ⟨sh, hsh, hname⟩ := hex
    rw [get_shape_eq_bind]
    unfold get_shapeIdx
    cases hfound : findIdxO (fun sh => sh.name == n) slide with
    | none =>
      exfalso
      have := findIdxO_eq_none_iff.mp hfound sh hsh
      simp [hname] at this
    | some i =>
      simp only [← findIdxO_bind_eq_find, hfound]
  · intro hnone
    rw [get_shape_eq_bind]
    unfold get_shapeIdx
    have hfound : findIdxO (fun sh => sh.name == n) slide = none := by
      rw [findIdxO_eq_none_iff]
      intro x hx
      simpa using hnone x hx
    rw [hfound, ← findIdxO_bind_eq_find]
  · intro hboth
    rw [get_shape_eq_bind]
    unfold get_shapeIdx
    have hfound : findIdxO (fun sh => sh.name == n) slide = none := by
      rw [findIdxO_eq_none_iff]
      intro x hx
      simpa using (hboth x hx).1
    have htok : findIdxO (tokenMatch n) slide = none := by
      rw [findIdxO_eq_none_iff]
      intro x hx
      exact (hboth x hx).2
    rw [hfound, htok]
    rfl

/-- Witness for C7: on `deck9` the exact-name branch fires for
`"Member: 999"`. -/
theorem get_shape_policy_witness :
    get_shape deck9 "Member: 999" =
      deck9.find? fun sh => sh.name == "Member: 999" :=
  (get_shape_policy deck9 "Member: 999").1 (by decide)

/-- **C9.** There is a slide and a requested name `"Member: <id>"` for
which `get_shape` returns a different member's shape: the fallback
matches any token of the requested name — including the constant token
`"Member:"` — against the shape text, so the `"Member: 999"` shape is
returned for the request `"Member: 123"` even though its text does not
contain `"123"`. -/
theorem get_shape_cross_member :
    get_shape deck9 "Member: 123" =
      some ⟨"Member: 999", "Member: 999 Andersson", ⟨9, 9, 9⟩, 1, 1⟩
    ∧ strContains "Member: 999 Andersson" "123" = false
    ∧ (("Member: 999" == "Member: 123") : Bool) = false :=
  ⟨rfl, rfl, rfl⟩

/-- **C8.** In `color_boats`, an id whose shape is found neither by exact
name nor by text fallback (at the moment it is processed) is skipped, and
every remaining id in the list is still processed: the pass over
`ids1 ++ id :: ids2` equals the pass over `ids1 ++ ids2`.  (The function
is total — one missing shape never aborts the colorization pass.) -/
theorem color_boats_skips_missing (slide : List Shape) (ids1 : List Int)
    (id : Int) (ids2 : List Int) (color : RGB)
    (h : get_shape (color_boats slide ids1 color) (make_shape_name id) = none) :
    color_boats slide (ids1 ++ id :: ids2) color =
      color_boats slide (ids1 ++ ids2) color := by
  have hstep : ∀ s : List Shape,
      get_shapeIdx s (make_shape_name id) = none →
      color_boats_step color s id = s := by
    intro s hs
    unfold color_boats_step
    rw [hs]
  unfold color_boats at h ⊢
  rw [List.foldl_append, List.foldl_append, List.foldl_cons,
    hstep _ ((get_shape_none_iff _ _).mp h)]

/-- Witness for C8: member 5 has no shape on `deck8` (and the witness
colour pass continues with member 7). -/
theorem color_boats_skips_missing_witness :
    color_boats deck8 [5, 7] ⟨1, 2, 3⟩ = color_boats deck8 [7] ⟨1, 2, 3⟩ :=
  color_boats_skips_missing deck8 [] 5 [7] ⟨1, 2, 3⟩ (by decide)

/-! ### Infrastructure for the Map Colorizer idempotence -/

theorem getD_chain (o p : Option α) (a : α) :
    o.getD (p.getD a) = (o.orElse fun _ => p).getD a := by
  cases o <;> rfl

theorem getD_idem (o : Option α) (a : α) : o.getD (o.getD a) = o.getD a := by
  cases o <;> rfl

theorem constOrId_id : ConstOrId id :=
  ⟨none, none, none, none, none, fun _ => rfl⟩

theorem constOrId_comp {f g : Shape → Shape} (hf : ConstOrId f)
    (hg : ConstOrId g) : ConstOrId (g ∘ f) := by
  obtain ⟨fn, ft, ff, fw, fh, hfe⟩ := hf
  obtain ⟨gn, gt, gf, gw, gh, hge⟩ := hg
  refine ⟨gn.orElse fun _ => fn, gt.orElse fun _ => ft, gf.orElse fun _ => ff,
    gw.orElse fun _ => fw, gh.orElse fun _ => fh, fun sh => ?_⟩
  rw [Function.comp_apply, hfe sh, hge]
  dsimp only
  congr 1 <;> apply getD_chain

theorem constOrId_idem {f : Shape → Shape} (hf : ConstOrId f) :
    ∀ sh, f (f sh) = f sh := by
  obtain ⟨fn, ft, ff, fw, fh, hfe⟩ := hf
  intro sh
  rw [hfe sh, hfe]
  dsimp only
  congr 1 <;> apply getD_idem

theorem constOrId_stMark (colors : Colors) (N : List String) (j : Nat) :
    ConstOrId (stMark colors N j) := by
  unfold stMark
  by_cases h : nameHas N j "Member:"
  · rw [if_pos h]
    exact ⟨none, none, some colors.unknown, none, none, fun sh => rfl⟩
  · rw [if_neg h]
    exact constOrId_id

theorem constOrId_stRect (colors : Colors) (N : List String) (j : Nat) :
    ConstOrId (stRect colors N j) := by
  unfold stRect
  by_cases h : nameHas N j "Rectangle"
  · rw [if_pos h]
    exact ⟨none, none, some colors.unknown, none, none, fun sh => rfl⟩
  · rw [if_neg h]
    exact constOrId_id

theorem constOrId_stBoat1 (colors : Colors) (N : List String) (j : Nat)
    (b : ReconciledBoat) : ConstOrId (stBoat1 colors N j b) := by
  unfold stBoat1
  by_cases h : eIdx N (make_shape_name b.member) == some j
  · rw [if_pos h]
    exact ⟨some (make_shape_name b.member), some (boatCaption b),
      some (if b.requested then colors.reserved else colors.declined),
      some (b.length * 5), some (b.width * 5), fun sh => rfl⟩
  · rw [if_neg h]
    exact constOrId_id

theorem constOrId_stCb1 (color : RGB) (N : List String) (j : Nat) (m : Int) :
    ConstOrId (stCb1 color N j m) := by
  unfold stCb1
  by_cases h : eIdx N (make_shape_name m) == some j
  · rw [if_pos h]
    exact ⟨some (make_shape_name m), none, some color, none, none,
      fun sh => rfl⟩
  · rw [if_neg h]
    exact constOrId_id

theorem constOrId_stBoats (colors : Colors) (N : List String) (j : Nat) :
    ∀ bs : List ReconciledBoat, ConstOrId (stBoats colors N j bs) := by
  intro bs
  induction bs with
  | nil => exact constOrId_id
  | cons b rest ih =>
    exact constOrId_comp (constOrId_stBoat1 colors N j b) ih

theorem constOrId_stColor (color : RGB) (N : List String) (j : Nat) :
    ∀ ms : List Int, ConstOrId (stColor color N j ms) := by
  intro ms
  induction ms with
  | nil => exact constOrId_id
  | cons m rest ih =>
    exact constOrId_comp (constOrId_stCb1 color N j m) ih

theorem constOrId_phi (colors : Colors) (N : List String)
    (boats : List ReconciledBoat) (already_there ex_members : List Int)
    (j : Nat) : ConstOrId (phiMap colors N boats already_there ex_members j) := by
  unfold phiMap
  exact constOrId_comp (constOrId_comp (constOrId_comp (constOrId_comp
    (constOrId_stMark colors N j) (constOrId_stBoats colors N j boats))
    (constOrId_stColor colors.member_left N j ex_members.eraseDups))
    (constOrId_stColor colors.on_land N j already_there))
    (constOrId_stRect colors N j)

theorem eIdx_some_name {N : List String} {n : String} {i : Nat}
    (h : eIdx N n = some i) : N[i]? = some n := by
  obtain ⟨⟨x, hx, hpx⟩, _⟩ := findIdxO_spec h
  rw [hx]
  congr
  exact eq_of_beq hpx

theorem eIdx_isSome_of_mem {N : List String} {n : String} (h : n ∈ N) :
    ∃ i, eIdx N n = some i := by
  cases he : eIdx N n with
  | some i => exact ⟨i, rfl⟩
  | none =>
    exfalso
    have := findIdxO_eq_none_iff.mp he n h
    simp at this

theorem namePres_id (N : List String) (j : Nat) : NamePres N j id :=
  fun _ _ => rfl

theorem namePres_comp {N : List String} {j : Nat} {f g : Shape → Shape}
    (hf : NamePres N j f) (hg : NamePres N j g) : NamePres N j (g ∘ f) := by
  intro sh h
  rw [Function.comp_apply, hg (f sh) (by rw [hf sh h]; exact h), hf sh h]

theorem namePres_stMark (colors : Colors) (N : List String) (j : Nat) :
    NamePres N j (stMark colors N j) := by
  intro sh h
  unfold stMark
  by_cases hc : nameHas N j "Member:"
  · rw [if_pos hc]
  · rw [if_neg hc]
    rfl

theorem namePres_stRect (colors : Colors) (N : List String) (j : Nat) :
    NamePres N j (stRect colors N j) := by
  intro sh h
  unfold stRect
  by_cases hc : nameHas N j "Rectangle"
  · rw [if_pos hc]
  · rw [if_neg hc]
    rfl

theorem namePres_stBoat1 (colors : Colors) (N : List String) (j : Nat)
    (b : ReconciledBoat) : NamePres N j (stBoat1 colors N j b) := by
  intro sh h
  unfold stBoat1
  by_cases hc : eIdx N (make_shape_name b.member) == some j
  · rw [if_pos hc]
    have hidx : eIdx N (make_shape_name b.member) = some j := by
      simpa using hc
    have hn := eIdx_some_name hidx
    rw [h] at hn
    have hsn : sh.name = make_shape_name b.member := by simpa using hn
    exact hsn.symm
  · rw [if_neg hc]
    rfl

theorem namePres_stCb1 (color : RGB) (N : List String) (j : Nat) (m : Int) :
    NamePres N j (stCb1 color N j m) := by
  intro sh h
  unfold stCb1
  by_cases hc : eIdx N (make_shape_name m) == some j
  · rw [if_pos hc]
    have hidx : eIdx N (make_shape_name m) = some j := by simpa using hc
    have hn := eIdx_some_name hidx
    rw [h] at hn
    have hsn : sh.name = make_shape_name m := by simpa using hn
    exact hsn.symm
  · rw [if_neg hc]
    rfl

theorem namePres_stBoats (colors : Colors) (N : List String) (j : Nat) :
    ∀ bs : List ReconciledBoat, NamePres N j (stBoats colors N j bs) := by
  intro bs
  induction bs with
  | nil => exact namePres_id N j
  | cons b rest ih =>
    exact namePres_comp (namePres_stBoat1 colors N j b) ih

theorem namePres_stColor (color : RGB) (N : List String) (j : Nat) :
    ∀ ms : List Int, NamePres N j (stColor color N j ms) := by
  intro ms
  induction ms with
  | nil => exact namePres_id N j
  | cons m rest ih =>
    exact namePres_comp (namePres_stCb1 color N j m) ih

theorem findIdxO_map (f : α → β) (p : β → Bool) :
    ∀ l : List α, findIdxO p (l.map f) = findIdxO (fun a => p (f a)) l := by
  intro l
  induction l with
  | nil => rfl
  | cons a as ih => simp [findIdxO, ih]

theorem modifyAt_getElem? (f : Shape → Shape) :
    ∀ (d : List Shape) (i j : Nat),
      (modifyAt f i d)[j]? = if j = i then (d[j]?).map f else d[j]? := by
  intro d
  induction d with
  | nil =>
    intro i j
    simp [modifyAt]
  | cons sh rest ih =>
    intro i j
    cases i with
    | zero =>
      cases j with
      | zero => simp [modifyAt]
      | succ j2 => simp [modifyAt]
    | succ i2 =>
      cases j with
      | zero => simp [modifyAt]
      | succ j2 =>
        have hstep : (modifyAt f (i2 + 1) (sh :: rest))[j2 + 1]? =
            (modifyAt f i2 rest)[j2]? := by
          simp [modifyAt]
        rw [hstep, ih i2 j2, List.getElem?_cons_succ]
        by_cases hji : j2 = i2
        · rw [if_pos hji, if_pos (by omega)]
        · rw [if_neg hji, if_neg (by omega)]

theorem names_eq_of_pointwise {d d2 : List Shape} {N : List String}
    {f : Nat → Shape → Shape} (hN : d.map Shape.name = N)
    (hpt : ∀ j, d2[j]? = (d[j]?).map (f j))
    (hfix : ∀ j, NamePres N j (f j)) : d2.map Shape.name = N := by
  rw [← hN]
  apply List.ext_getElem?
  intro j
  rw [List.getElem?_map, List.getElem?_map, hpt j]
  cases hd : d[j]? with
  | none => rfl
  | some sh =>
    simp only [Option.map_some']
    congr 1
    apply hfix j sh
    rw [← hN, List.getElem?_map, hd]
    rfl

theorem mem_eraseDups_loop {x : Int} :
    ∀ as bs : List Int, x ∈ List.eraseDups.loop as bs → x ∈ as ∨ x ∈ bs := by
  intro as
  induction as with
  | nil =>
    intro bs h
    rw [List.eraseDups.loop] at h
    exact Or.inr (List.mem_reverse.mp h)
  | cons a rest ih =>
    intro bs h
    rw [List.eraseDups.loop] at h
    cases helem : bs.elem a with
    | true =>
      rw [helem] at h
      rcases ih bs h with h1 | h2
      · exact Or.inl (List.mem_cons_of_mem a h1)
      · exact Or.inr h2
    | false =>
      rw [helem] at h
      rcases ih (a :: bs) h with h1 | h2
      · exact Or.inl (List.mem_cons_of_mem a h1)
      · rcases List.mem_cons.mp h2 with rfl | h3
        · exact Or.inl (List.mem_cons_self _ _)
        · exact Or.inr h3

theorem mem_eraseDups_sub {x : Int} {l : List Int} (h : x ∈ l.eraseDups) :
    x ∈ l := by
  unfold List.eraseDups at h
  rcases mem_eraseDups_loop l [] h with h1 | h2
  · exact h1
  · simp at h2

/-! ### Pointwise action of each Map Colorizer pass (under exact-name
lookups) -/

theorem get_shapeIdx_exact {d : List Shape} {N : List String} {n : String}
    (hN : d.map Shape.name = N) (hmem : n ∈ N) :
    get_shapeIdx d n = eIdx N n := by
  have hfind : findIdxO (fun sh => sh.name == n) d = eIdx N n := by
    unfold eIdx
    rw [← hN, findIdxO_map]
  unfold get_shapeIdx
  rw [hfind]
  obtain ⟨i, hi⟩ := eIdx_isSome_of_mem hmem
  rw [hi]

theorem mark_pointwise (colors : Colors) {d : List Shape} {N : List String}
    (hN : d.map Shape.name = N) :
    ∀ j, (mark_all_boats_as_unhandled colors d)[j]? =
      (d[j]?).map (stMark colors N j) := by
  intro j
  unfold mark_all_boats_as_unhandled
  rw [List.getElem?_map]
  cases hd : d[j]? with
  | none => rfl
  | some sh =>
    have hj : N[j]? = some sh.name := by
      rw [← hN, List.getElem?_map, hd]
      rfl
    simp only [Option.map_some']
    congr 1
    unfold stMark nameHas
    rw [hj]
    by_cases hc : strContains sh.name "Member:"
    · rw [if_pos hc, if_pos hc]
    · rw [if_neg hc, if_neg hc]
      rfl

theorem rect_pointwise (colors : Colors) {d : List Shape} {N : List String}
    (hN : d.map Shape.name = N) :
    ∀ j, (d.map fun sh =>
        if strContains sh.name "Rectangle" then { sh with fill := colors.unknown }
        else sh)[j]? =
      (d[j]?).map (stRect colors N j) := by
  intro j
  rw [List.getElem?_map]
  cases hd : d[j]? with
  | none => rfl
  | some sh =>
    have hj : N[j]? = some sh.name := by
      rw [← hN, List.getElem?_map, hd]
      rfl
    simp only [Option.map_some']
    congr 1
    unfold stRect nameHas
    rw [hj]
    by_cases hc : strContains sh.name "Rectangle"
    · rw [if_pos hc, if_pos hc]
    · rw [if_neg hc, if_neg hc]
      rfl

theorem stBoat1_eq_write {colors : Colors} {N : List String} {j : Nat}
    {b : ReconciledBoat} (h : eIdx N (make_shape_name b.member) = some j) :
    stBoat1 colors N j b = fun sh =>
      { sh with
        name := make_shape_name b.member
        text := boatCaption b
        fill := if b.requested then colors.reserved else colors.declined
        width := b.length * 5
        height := b.width * 5 } := by
  unfold stBoat1
  rw [if_pos (by rw [h]; simp)]

theorem stBoat1_eq_id {colors : Colors} {N : List String} {j : Nat}
    {b : ReconciledBoat} (h : ¬ eIdx N (make_shape_name b.member) = some j) :
    stBoat1 colors N j b = id := by
  unfold stBoat1
  rw [if_neg (by simpa using h)]

theorem stCb1_eq_write {color : RGB} {N : List String} {j : Nat} {m : Int}
    (h : eIdx N (make_shape_name m) = some j) :
    stCb1 color N j m = fun sh =>
      { sh with fill := color, name := make_shape_name m } := by
  unfold stCb1
  rw [if_pos (by rw [h]; simp)]

theorem stCb1_eq_id {color : RGB} {N : List String} {j : Nat} {m : Int}
    (h : ¬ eIdx N (make_shape_name m) = some j) :
    stCb1 color N j m = id := by
  unfold stCb1
  rw [if_neg (by simpa using h)]

theorem add_one_boat_pointwise (colors : Colors) {d : List Shape}
    {N : List String} (b : ReconciledBoat) (hN : d.map Shape.name = N)
    (hmem : make_shape_name b.member ∈ N) :
    ∀ j, (add_one_boat colors d b)[j]? = (d[j]?).map (stBoat1 colors N j b) := by
  intro j
  obtain ⟨i, hi⟩ := eIdx_isSome_of_mem hmem
  have hidx : get_shapeIdx d (make_shape_name b.member) = some i := by
    rw [get_shapeIdx_exact hN hmem, hi]
  have hform : add_one_boat colors d b =
      modifyAt (fun sh => { sh with text := boatCaption b }) i
        (modifyAt (fun sh =>
            { sh with fill := if b.requested then colors.reserved
                else colors.declined }) i
          (modifyAt (fun sh =>
            { sh with
              width := b.length * 5
              height := b.width * 5
              name := make_shape_name b.member }) i d)) := by
    simp only [add_one_boat, ensured_shape, hidx]
  rw [hform, modifyAt_getElem?, modifyAt_getElem?, modifyAt_getElem?]
  by_cases hji : j = i
  · subst hji
    rw [if_pos rfl, if_pos rfl, if_pos rfl, Option.map_map, Option.map_map,
      stBoat1_eq_write hi]
    rfl
  · rw [if_neg hji, if_neg hji, if_neg hji,
      stBoat1_eq_id (by rw [hi]; simpa using fun hcon => hji hcon.symm)]
    cases d[j]? <;> rfl

theorem color_step_pointwise (color : RGB) {d : List Shape} {N : List String}
    (m : Int) (hN : d.map Shape.name = N) (hmem : make_shape_name m ∈ N) :
    ∀ j, (color_boats_step color d m)[j]? = (d[j]?).map (stCb1 color N j m) := by
  intro j
  obtain ⟨i, hi⟩ := eIdx_isSome_of_mem hmem
  have hidx : get_shapeIdx d (make_shape_name m) = some i := by
    rw [get_shapeIdx_exact hN hmem, hi]
  have hform : color_boats_step color d m =
      modifyAt (fun sh => { sh with fill := color, name := make_shape_name m })
        i d := by
    simp only [color_boats_step, hidx]
  rw [hform, modifyAt_getElem?]
  by_cases hji : j = i
  · subst hji
    rw [if_pos rfl, stCb1_eq_write hi]
  · rw [if_neg hji,
      stCb1_eq_id (by rw [hi]; simpa using fun hcon => hji hcon.symm)]
    cases d[j]? <;> rfl

theorem boats_fold_pointwise (colors : Colors) :
    ∀ (bs : List ReconciledBoat) (d : List Shape) (N : List String),
      d.map Shape.name = N →
      (∀ b ∈ bs, make_shape_name b.member ∈ N) →
      ((bs.foldl (add_one_boat colors) d).map Shape.name = N ∧
        ∀ j, (bs.foldl (add_one_boat colors) d)[j]? =
          (d[j]?).map (stBoats colors N j bs)) := by
  intro bs
  induction bs with
  | nil =>
    intro d N hN _
    refine ⟨hN, fun j => ?_⟩
    show d[j]? = (d[j]?).map (stBoats colors N j [])
    cases d[j]? <;> rfl
  | cons b rest ih =>
    intro d N hN hmem
    have hb : make_shape_name b.member ∈ N := hmem b (List.mem_cons_self b rest)
    have hpt1 := add_one_boat_pointwise colors b hN hb
    have hnames1 : (add_one_boat colors d b).map Shape.name = N :=
      names_eq_of_pointwise hN hpt1 (fun j => namePres_stBoat1 colors N j b)
    obtain ⟨hnames2, hpt2⟩ := ih (add_one_boat colors d b) N hnames1
      (fun c hc => hmem c (List.mem_cons_of_mem b hc))
    refine ⟨hnames2, fun j => ?_⟩
    rw [List.foldl_cons, hpt2 j, hpt1 j, Option.map_map]
    rfl

theorem color_fold_pointwise (color : RGB) :
    ∀ (ms : List Int) (d : List Shape) (N : List String),
      d.map Shape.name = N →
      (∀ m ∈ ms, make_shape_name m ∈ N) →
      ((color_boats d ms color).map Shape.name = N ∧
        ∀ j, (color_boats d ms color)[j]? =
          (d[j]?).map (stColor color N j ms)) := by
  intro ms
  induction ms with
  | nil =>
    intro d N hN _
    refine ⟨hN, fun j => ?_⟩
    show d[j]? = (d[j]?).map (stColor color N j [])
    cases d[j]? <;> rfl
  | cons m rest ih =>
    intro d N hN hmem
    have hm : make_shape_name m ∈ N := hmem m (List.mem_cons_self m rest)
    have hpt1 := color_step_pointwise color m hN hm
    have hnames1 : (color_boats_step color d m).map Shape.name = N :=
      names_eq_of_pointwise hN hpt1 (fun j => namePres_stCb1 color N j m)
    obtain ⟨hnames2, hpt2⟩ := ih (color_boats_step color d m) N hnames1
      (fun c hc => hmem c (List.mem_cons_of_mem m hc))
    refine ⟨hnames2, fun j => ?_⟩
    unfold color_boats at hpt2 ⊢
    rw [List.foldl_cons, hpt2 j, hpt1 j, Option.map_map]
    rfl

theorem markAndAdd_pointwise (colors : Colors) {d : List Shape}
    {N : List String} (boats : List ReconciledBoat)
    (already_there ex_members : List Int) (hN : d.map Shape.name = N)
    (hb : ∀ b ∈ boats, make_shape_name b.member ∈ N)
    (he : ∀ m ∈ ex_members, make_shape_name m ∈ N)
    (hl : ∀ m ∈ already_there, make_shape_name m ∈ N) :
    (markAndAdd colors d boats already_there ex_members).map Shape.name = N ∧
      ∀ j, (markAndAdd colors d boats already_there ex_members)[j]? =
        (d[j]?).map (phiMap colors N boats already_there ex_members j) := by
  have hpt0 := mark_pointwise colors hN
  have hn0 : (mark_all_boats_as_unhandled colors d).map Shape.name = N :=
    names_eq_of_pointwise hN hpt0 (fun j => namePres_stMark colors N j)
  obtain ⟨hn1, hpt1⟩ := boats_fold_pointwise colors boats
    (mark_all_boats_as_unhandled colors d) N hn0 hb
  obtain ⟨hn2, hpt2⟩ := color_fold_pointwise colors.member_left
    ex_members.eraseDups _ N hn1 (fun m hm => he m (mem_eraseDups_sub hm))
  obtain ⟨hn3, hpt3⟩ := color_fold_pointwise colors.on_land already_there _ N
    hn2 hl
  have hpt4 := rect_pointwise colors hn3
  have hn4 := names_eq_of_pointwise hn3 hpt4 (fun j => namePres_stRect colors N j)
  have hform : markAndAdd colors d boats already_there ex_members =
      (color_boats (color_boats ((boats.foldl (add_one_boat colors)
          (mark_all_boats_as_unhandled colors d))) ex_members.eraseDups
          colors.member_left) already_there colors.on_land).map fun sh =>
        if strContains sh.name "Rectangle" then { sh with fill := colors.unknown }
        else sh := by
    rfl
  constructor
  · rw [hform]
    exact hn4
  · intro j
    rw [hform, hpt4 j, hpt3 j, hpt2 j, hpt1 j, hpt0 j, Option.map_map,
      Option.map_map, Option.map_map, Option.map_map]
    rfl

/-- **C6 (amended).** Running the Map Colorizer sequence
(`mark_all_boats_as_unhandled` then `add_boats_to_map`) twice yields the
same deck as running it once, **provided** every boat id, ex-member id
and on-land id used by the run has a shape with the exact name
`"Member: <id>"` on the slide (so no lookup falls through to the text
fallback and no shape is created).  Without that proviso the sequence is
not idempotent — see the counterexample. -/
theorem markAndAdd_idempotent (colors : Colors) (slide : List Shape)
    (boats : List ReconciledBoat) (already_there ex_members : List Int)
    (hb : ∀ b ∈ boats, make_shape_name b.member ∈ slide.map Shape.name)
    (he : ∀ m ∈ ex_members, make_shape_name m ∈ slide.map Shape.name)
    (hl : ∀ m ∈ already_there, make_shape_name m ∈ slide.map Shape.name) :
    markAndAdd colors (markAndAdd colors slide boats already_there ex_members)
        boats already_there ex_members =
      markAndAdd colors slide boats already_there ex_members := by
  obtain ⟨hn1, hpt1⟩ :=
    markAndAdd_pointwise colors boats already_there ex_members rfl hb he hl
  obtain ⟨_, hpt2⟩ :=
    markAndAdd_pointwise colors boats already_there ex_members hn1 hb he hl
  apply List.ext_getElem?
  intro j
  rw [hpt2 j, hpt1 j, Option.map_map]
  cases slide[j]? with
  | none => rfl
  | some sh =>
    simp only [Option.map_some', Function.comp_apply]
    congr 1
    exact constOrId_idem
      (constOrId_phi colors (slide.map Shape.name) boats already_there
        ex_members j) sh

/-- **C6 (counterexample).** The claim — idempotence for *every* deck and
boat collection — fails: on `deckC6`/`boatsC6` the first run lets boat 1
steal boat 41's shape through the text fallback (the caption `"41 …"`
contains the token `"1"`), so the second run finds no shape for boat 41
and creates a new one; the two decks differ (already in length). -/
theorem markAndAdd_not_idempotent :
    markAndAdd defaultColors
        (markAndAdd defaultColors deckC6 boatsC6 [] []) boatsC6 [] [] ≠
      markAndAdd defaultColors deckC6 boatsC6 [] [] := by
  intro hcon
  have h1 : (markAndAdd defaultColors deckC6 boatsC6 [] []).length = 1 := by
    with_unfolding_all rfl
  have h2 : (markAndAdd defaultColors
      (markAndAdd defaultColors deckC6 boatsC6 [] []) boatsC6 [] []).length
      = 2 := by
    with_unfolding_all rfl
  rw [hcon, h1] at h2
  exact absurd h2 (by decide)

/-- Witness for the amended C6: a deck carrying an exactly named shape
for the single boat. -/
theorem markAndAdd_idempotent_witness :
    markAndAdd defaultColors
        (markAndAdd defaultColors deckC6w boatsC6w [] []) boatsC6w [] [] =
      markAndAdd defaultColors deckC6w boatsC6w [] [] :=
  markAndAdd_idempotent defaultColors deckC6w boatsC6w [] []
    (by decide) (by decide) (by decide)

/-! ### Frame behaviour of the heap-level `pyGetBoats` -/

theorem optFold_transform (ns : List Int) (members : List Dict) :
    ∀ (idxs : List Nat) (st : List Dict),
      idxs.Nodup →
      st.length = members.length →
      (∀ i ∈ idxs, st[i]? = members[i]?) →
      (∀ i : Nat, st[i]? = members[i]? ∨
        ∃ d d2, members[i]? = some d ∧ pyTransform d ns = some d2 ∧
          st[i]? = some d2) →
      ∀ st2, optFold (transformStep ns) idxs st = some st2 →
        st2.length = members.length ∧
          ∀ i : Nat, st2[i]? = members[i]? ∨
            ∃ d d2, members[i]? = some d ∧ pyTransform d ns = some d2 ∧
              st2[i]? = some d2 := by
  intro idxs
  induction idxs with
  | nil =>
    intro st _ hlen _ hinv st2 h
    rw [optFold] at h
    simp only [Option.some.injEq] at h
    subst h
    exact ⟨hlen, hinv⟩
  | cons i rest ih =>
    intro st hnd hlen hagree hinv st2 h
    rw [optFold] at h
    cases hstep : transformStep ns st i with
    | none => rw [hstep] at h; simp at h
    | some st1 =>
      rw [hstep] at h
      dsimp only at h
      unfold transformStep at hstep
      cases hst : st[i]? with
      | none => rw [hst] at hstep; simp at hstep
      | some d0 =>
        rw [hst] at hstep
        dsimp only at hstep
        cases htr : pyTransform d0 ns with
        | none => rw [htr] at hstep; simp at hstep
        | some d1 =>
          rw [htr] at hstep
          simp only [Option.map_some', Option.some.injEq] at hstep
          subst hstep
          have hndc := List.nodup_cons.mp hnd
          have him : members[i]? = some d0 :=
            (hagree i (List.mem_cons_self i rest)) ▸ hst
          have hilt : i < st.length := by
            by_contra hcon
            rw [List.getElem?_eq_none (by omega)] at hst
            simp at hst
          refine ih (st.set i d1) hndc.2 (by rw [List.length_set]; exact hlen)
            ?_ ?_ st2 h
          · intro j hj
            have hji : i ≠ j := fun hcon => hndc.1 (hcon ▸ hj)
            rw [List.getElem?_set_ne hji]
            exact hagree j (List.mem_cons_of_mem i hj)
          · intro j
            by_cases hji : i = j
            · subst hji
              right
              exact ⟨d0, d1, him, htr, by rw [List.getElem?_set_self hilt]⟩
            · rw [List.getElem?_set_ne hji]
              exact hinv j

/-- **C10 (counterexample).** `get_boats` does not leave `members`
unchanged: on a one-row member table whose id is requested, the member
dict is mutated in place (its `Medlemsnr`/`Längd (båt)`/`Bredd`/
`Efternamn` keys are popped and `member`/`length`/`width`/`name`/
`requested` are appended), so the caller's row differs from the original
after the call. -/
theorem pyGetBoats_mutates_members :
    (pyGetBoats [memDict0] [] [] [] [7]).map (fun r => r.2.2) =
      some [memMutated0]
    ∧ ((memMutated0 == memDict0) : Bool) = false :=
  ⟨by with_unfolding_all rfl, by decide⟩

/-- **C10 (amended).** At the heap level, `pyGetBoats` returns
`requested_spots` grown in place by exactly the missing scheduled and
on-land ids (`addMissing`, scheduled first), leaves the arguments the
source never writes (`already_there`, `scheduled`, `no_spot_requested`)
without a post-state, and mutates the member store pointwise: every row
is either untouched or replaced in place by its `pyTransform` image. -/
theorem pyGetBoats_frame (members : List Dict)
    (already_there scheduled no_spot_requested requested_spots : List Int)
    (res : List Dict) (req2 : List Int) (store : List Dict)
    (h : pyGetBoats members already_there scheduled no_spot_requested
      requested_spots = some (res, req2, store)) :
    (req2 = addMissing (addMissing requested_spots scheduled) already_there
      ∧ ∀ x : Int, x ∈ req2 ↔
          x ∈ requested_spots ∨ x ∈ scheduled ∨ x ∈ already_there)
    ∧ store.length = members.length
    ∧ ∀ i : Nat, store[i]? = members[i]? ∨
        ∃ d d2, members[i]? = some d ∧
          pyTransform d no_spot_requested = some d2 ∧ store[i]? = some d2 := by
  unfold pyGetBoats at h
  cases hids : mapOption (fun d => dictGet? d "Medlemsnr") members with
  | none => rw [hids] at h; simp at h
  | some ids =>
    rw [hids] at h
    simp only [Option.bind_eq_bind, Option.some_bind] at h
    cases hstore : optFold (transformStep no_spot_requested)
        ((List.range members.length).filter fun i =>
          match ids[i]? with
          | some v => memberIdMatches v
              (addMissing (addMissing requested_spots scheduled) already_there)
          | none => false) members with
    | none => rw [hstore] at h; simp at h
    | some st2 =>
      rw [hstore] at h
      simp only [Option.some_bind] at h
      cases hreq : mapOption (fun i => st2[i]?)
          ((List.range members.length).filter fun i =>
            match ids[i]? with
            | some v => memberIdMatches v
                (addMissing (addMissing requested_spots scheduled)
                  already_there)
            | none => false) with
      | none => rw [hreq] at h; simp at h
      | some requests =>
        rw [hreq] at h
        simp only [Option.some_bind, Option.some.injEq, Prod.mk.injEq] at h
        obtain ⟨_, hmerged, hstoreeq⟩ := h
        subst hmerged
        subst hstoreeq
        have hfold := optFold_transform no_spot_requested members _ members
          (List.Nodup.filter _ (List.nodup_range _)) rfl
          (fun i _ => rfl) (fun i => Or.inl rfl) st2 hstore
        refine ⟨⟨rfl, ?_⟩, hfold.1, hfold.2⟩
        intro x
        rw [mem_addMissing, mem_addMissing]
        tauto

/-- Witness for the amended C10 at the one-row scenario. -/
theorem pyGetBoats_frame_witness :
    (([7] : List Int) = addMissing (addMissing [7] []) []
      ∧ ∀ x : Int, x ∈ ([7] : List Int) ↔
          x ∈ ([7] : List Int) ∨ x ∈ ([] : List Int) ∨ x ∈ ([] : List Int))
    ∧ ([memMutated0] : List Dict).length = ([memDict0] : List Dict).length
    ∧ ∀ i : Nat, ([memMutated0] : List Dict)[i]? = ([memDict0] : List Dict)[i]? ∨
        ∃ d d2, ([memDict0] : List Dict)[i]? = some d ∧
          pyTransform d [] = some d2 ∧
          ([memMutated0] : List Dict)[i]? = some d2 :=
  pyGetBoats_frame [memDict0] [] [] [] [7] [memMutated0] [7] [memMutated0]
    (by with_unfolding_all rfl)

end ESS
